import Mathlib

/-!
# Verification of the writing-post Markdown generator

A shallow embedding of `build/generate_writing.py` (the markdown-to-HTML
generator of this repository), together with theorems checking the
specification's claims about it.

Conventions of the embedding:
* Python strings are modelled as `List Char` (named `Line` below); string
  literals are converted with `tl`.
* Python dicts are modelled as insertion-ordered association lists; assignment
  replaces the value in place for an existing key and appends otherwise, which
  matches CPython's ordered-dict semantics.
* Functions that can `raise` are modelled in `Except Line`.
* `while` loops over a cursor are modelled by fuel-indexed recursion; the fuel
  passed by the wrappers is always at least the number of iterations a
  terminating run performs, and exhaustion surfaces as a distinguished
  `... fuel` error that no theorem below relies on.
* The regular expressions of the source are hand-compiled to character-level
  matchers with the same (backtracking) semantics, documented at each matcher.
* Whitespace predicates cover the ASCII whitespace class; the documents the
  generator processes are ASCII/UTF-8 text whose structural characters are
  ASCII, matching Python's behaviour on them.
-/

/-- Convert a Lean string literal to the `List Char` representation used
throughout. -/
def tl (s : String) : List Char := s.toList

/-- A Python string (usually one line of text). -/
abbrev Line := List Char

deriving instance DecidableEq for Except

/-- ASCII whitespace, as recognised by Python's `str.strip` / `\s`. -/
def isPySpace (c : Char) : Bool :=
  c == ' ' || c == '\t' || c == '\n' || c == '\r' ||
    c == Char.ofNat 11 || c == Char.ofNat 12

/-- Python `str.lstrip()`. -/
def pyLstrip (l : Line) : Line := l.dropWhile isPySpace

/-- Python `str.rstrip()`. -/
def pyRstrip (l : Line) : Line := (l.reverse.dropWhile isPySpace).reverse

/-- Python `str.strip()`. -/
def pyStrip (l : Line) : Line := pyRstrip (pyLstrip l)

/-- Python `str.lower()` (ASCII case folding). -/
def pyLower (l : Line) : Line := l.map Char.toLower

/-- Python `line.startswith(p)`. -/
def lineStarts (l p : Line) : Bool := p.isPrefixOf l

/-- Python slice `l[a:b]` for natural bounds. -/
def pySlice (l : Line) (a b : Nat) : Line := (l.drop a).take (b - a)

/-- `lines[i]` on the mutable line buffer (always used under an `i < len`
guard in the source). -/
def lineAt (lines : List Line) (i : Nat) : Line := lines.getD i []

/-- `lines[i] = ""`, the in-place blanking used by the harvester and the
table parser. -/
def setLine (lines : List Line) (i : Nat) : List Line := lines.set i []

/-- Helper for `splitlinesPy`: accumulates the current line (reversed). -/
def splitlinesAux : List Char → List Char → List (List Char)
  | [], acc => [acc.reverse]
  | '\n' :: rest, acc =>
    match rest with
    | [] => [acc.reverse]
    | _ :: _ => acc.reverse :: splitlinesAux rest []
  | c :: rest, acc => splitlinesAux rest (c :: acc)

/-- Python `str.splitlines()` restricted to `\n` separators: a trailing
newline produces no trailing empty line, and `"".splitlines() = []`. -/
def splitlinesPy (s : List Char) : List (List Char) :=
  match s with
  | [] => []
  | _ :: _ => splitlinesAux s []

/-- `"\n".join(lines)`. -/
def joinNl (lines : List Line) : Line := List.intercalate ['\n'] lines

/-- `" ".join(parts)`. -/
def joinSpace (parts : List Line) : Line := List.intercalate [' '] parts

/-- Ordered-dict lookup on an association list. -/
def alGet {α : Type} (k : Line) : List (Line × α) → Option α
  | [] => none
  | (k', v) :: rest => if k' = k then some v else alGet k rest

/-- Ordered-dict assignment: replace in place if the key exists, else append
(CPython `dict` insertion-order semantics). -/
def alInsert {α : Type} (k : Line) (v : α) : List (Line × α) → List (Line × α)
  | [] => [(k, v)]
  | (k', v') :: rest =>
    if k' = k then (k, v) :: rest else (k', v') :: alInsert k v rest

/-- `collapse_text`: splits a value into lines, strips each, drops blanks and
joins the remainder with single spaces. -/
def collapse_text (value : Line) : Line :=
  if value = [] then []
  else
    pyStrip (joinSpace ((splitlinesPy value).filterMap
      (fun part => let s := pyStrip part; if s = [] then none else some s)))

/-! ## Front-matter extractor (`parse_front_matter`) -/

/-- The loop of `parse_front_matter` that collects lines until the first bare
`---` delimiter; `none` when the section is never closed. -/
def fmSplit : List Line → Option (List Line × List Line)
  | [] => none
  | l :: ls =>
    if pyStrip l = tl "---" then some ([], ls)
    else
      match fmSplit ls with
      | some (front, rest) => some (l :: front, rest)
      | none => none

/-- The metadata-building loop of `parse_front_matter`: each non-blank line
must contain a colon; the first colon splits key from value, both stripped. -/
def fmParseLines : List Line → List (Line × Line) → Except Line (List (Line × Line))
  | [], md => .ok md
  | l :: ls, md =>
    if pyStrip l = [] then fmParseLines ls md
    else if ':' ∈ l then
      let key := l.takeWhile (fun c => c ≠ ':')
      let value := (l.dropWhile (fun c => c ≠ ':')).drop 1
      fmParseLines ls (alInsert (pyStrip key) (pyStrip value) md)
    else .error (tl "Invalid front matter line: " ++ l)

/-- `parse_front_matter`: splits a raw document into the front-matter mapping
and the remaining body text (leading newlines stripped). -/
def parse_front_matter (raw : Line) :
    Except Line (List (Line × Line) × Line) :=
  match splitlinesPy raw with
  | [] => .error (tl "Markdown file must start with '---' front matter delimiter")
  | first :: rest =>
    if pyStrip first ≠ tl "---" then
      .error (tl "Markdown file must start with '---' front matter delimiter")
    else
      match fmSplit rest with
      | none => .error (tl "Front matter is not closed with '---'")
      | some (front, after) =>
        match fmParseLines front [] with
        | .error e => .error e
        | .ok md => .ok (md, (joinNl after).dropWhile (fun c => c = '\n'))

/-! ## HTML escaping and dash rewriting -/

/-- `html.escape` with `quote=True` (the default), character by character;
the pass structure of CPython's implementation (`&` first) makes it
equivalent to this independent per-character map. -/
def htmlEscapeChar (c : Char) : Line :=
  if c = '&' then tl "&amp;"
  else if c = '<' then tl "&lt;"
  else if c = '>' then tl "&gt;"
  else if c = '"' then tl "&quot;"
  else if c = Char.ofNat 39 then tl "&#x27;"
  else [c]

/-- `html_escape(s)` as used throughout the generator. -/
def html_escape (s : Line) : Line := s.flatMap htmlEscapeChar

/-- `html_attr`: attribute escaping (quote=True, same as `html_escape`). -/
def html_attr (s : Line) : Line := html_escape s

/-- `EM_DASH_HTML` constant of the source. -/
def EM_DASH_HTML : Line := tl "<span class=\"emdash-box\">&mdash;</span>"

/-- `EN_DASH_HTML` constant of the source. -/
def EN_DASH_HTML : Line := tl "&ndash;"

/-- `s.replace("---", EM_DASH_HTML)`: leftmost non-overlapping replacement,
exactly Python's `str.replace` scan. -/
def replaceTriple : List Char → List Char
  | '-' :: '-' :: '-' :: rest => EM_DASH_HTML ++ replaceTriple rest
  | c :: rest => c :: replaceTriple rest
  | [] => []

/-- `s.replace("--", EN_DASH_HTML)`. -/
def replaceDouble : List Char → List Char
  | '-' :: '-' :: rest => EN_DASH_HTML ++ replaceDouble rest
  | c :: rest => c :: replaceDouble rest
  | [] => []

/-- `s.replace(str(c), rep)` for a single-character pattern. -/
def replaceCharBy (c : Char) (rep : Line) : List Char → List Char
  | [] => []
  | x :: rest =>
    if x = c then rep ++ replaceCharBy c rep rest
    else x :: replaceCharBy c rep rest

/-- The Unicode em dash. -/
def emDashChar : Char := Char.ofNat 8212

/-- The Unicode en dash. -/
def enDashChar : Char := Char.ofNat 8211

/-- The four dash substitutions of `render_text_segment`, in source order:
`---`, then `--`, then the Unicode em dash, then the Unicode en dash. -/
def dashRewrite (s : Line) : Line :=
  replaceCharBy enDashChar EN_DASH_HTML
    (replaceCharBy emDashChar EM_DASH_HTML
      (replaceDouble (replaceTriple s)))

/-- `render_text_segment`: HTML-escape, then apply the dash substitutions. -/
def render_text_segment (segment : Line) : Line :=
  dashRewrite (html_escape segment)

/-- Observation used to reason about dash rewriting: does the text start with
a hyphen? -/
def headDash : List Char → Bool
  | [] => false
  | c :: _ => c == '-'

/-- Observation: does the text contain two adjacent hyphens? -/
def hasDD : List Char → Bool
  | [] => false
  | c :: rest => (c == '-' && headDash rest) || hasDD rest

/-! ## Scanning helpers (`find_closing`, `str.find`) -/

/-- Core of `find_closing`, scanning a suffix: a backslash skips the next
character; the first unescaped occurrence of `closing` is reported by
offset. -/
def findClosingFrom (closing : Char) : Line → Option Nat
  | [] => none
  | c :: rest =>
    if c = '\\' then
      match rest with
      | [] => none
      | _ :: rest2 => (findClosingFrom closing rest2).map (fun n => n + 2)
    else if c = closing then some 0
    else (findClosingFrom closing rest).map (fun n => n + 1)

/-- `find_closing(text, start, closing)`; `none` models the `-1` result. -/
def find_closing (text : Line) (start : Nat) (closing : Char) : Option Nat :=
  (findClosingFrom closing (text.drop start)).map (fun n => n + start)

/-- Core of Python `str.find`: first offset at which `pat` occurs. -/
def findSubAux (pat : Line) : Line → Option Nat
  | [] => none
  | c :: rest =>
    if pat.isPrefixOf (c :: rest) then some 0
    else (findSubAux pat rest).map (fun n => n + 1)

/-- `text.find(pat, start)` (for the nonempty patterns used in the source);
`none` models `-1`. -/
def findSub (text pat : Line) (start : Nat) : Option Nat :=
  (findSubAux pat (text.drop start)).map (fun n => n + start)

/-! ## Hand-compiled regular expressions -/

/-- `ORDERED_LIST_RE = ^(\d+)\.\s+(.*)` as a Boolean test (used only for
block classification): digits, a dot, then at least one whitespace. -/
def olUpcoming (s : Line) : Bool :=
  let ds := s.takeWhile Char.isDigit
  if ds.isEmpty then false
  else
    match s.dropWhile Char.isDigit with
    | '.' :: c :: _ => isPySpace c
    | _ => false

/-- List-parser pattern `^(\s*)- (.*)$`: returns (leading whitespace, item
text). The `\s*`/`- ` split is deterministic because `-` is not whitespace. -/
def ulMatch (line : Line) : Option (Line × Line) :=
  let ws := line.takeWhile isPySpace
  match line.dropWhile isPySpace with
  | '-' :: ' ' :: tail => some (ws, tail)
  | _ => none

/-- List-parser pattern `^(\s*)(\d+)\. (.*)$`: returns (leading whitespace,
digits, item text). -/
def olMatch (line : Line) : Option (Line × Line × Line) :=
  let ws := line.takeWhile isPySpace
  let rest := line.dropWhile isPySpace
  let ds := rest.takeWhile Char.isDigit
  if ds.isEmpty then none
  else
    match rest.dropWhile Char.isDigit with
    | '.' :: ' ' :: tail => some (ws, ds, tail)
    | _ => none

/-- One column of `TABLE_DIVIDER_RE`: `\s*:?-{3,}:?\s*` (deterministic:
every quantified class is disjoint from its successor). -/
def dividerCell (seg : Line) : Bool :=
  let s1 := seg.dropWhile isPySpace
  let s2 := match s1 with | ':' :: t => t | _ => s1
  let dashes := s2.takeWhile (fun c => c == '-')
  let s3 := s2.dropWhile (fun c => c == '-')
  let s4 := match s3 with | ':' :: t => t | _ => s3
  decide (dashes.length ≥ 3) && s4.all isPySpace

/-- `str.split(sep)` for a single-character separator (Python semantics:
`"" → [""]`, separators at the ends produce empty fields). -/
def splitOnCharAux (sep : Char) : List Char → List Char → List (List Char)
  | [], acc => [acc.reverse]
  | c :: rest, acc =>
    if c = sep then acc.reverse :: splitOnCharAux sep rest []
    else splitOnCharAux sep rest (c :: acc)

/-- `str.split(sep)` wrapper. -/
def splitOnChar (sep : Char) (l : List Char) : List (List Char) :=
  splitOnCharAux sep l []

/-- `TABLE_DIVIDER_RE = ^\s*\|?\s*:?-{3,}:?\s*(\|\s*:?-{3,}:?\s*)+\|?\s*$`,
applied to an already-stripped line.  Because a column can never contain a
pipe, the regex matches exactly when, after removing at most one leading and
one trailing `|`, splitting on `|` yields at least two segments that all
match the column pattern. -/
def tableDividerMatch (s : Line) : Bool :=
  let t1 := match s with | '|' :: r => r | _ => s
  let t2 := match t1.reverse with | '|' :: r => r.reverse | _ => t1
  let parts := splitOnChar '|' t2
  decide (parts.length ≥ 2) && parts.all dividerCell

/-- `is_table_divider`. -/
def is_table_divider (line : Line) : Bool :=
  let stripped := pyStrip line
  if stripped.isEmpty then false else tableDividerMatch stripped

/-- `is_table_start(lines, index)`. -/
def is_table_start (lines : List Line) (index : Nat) : Bool :=
  if index + 1 ≥ lines.length then false
  else if !((lineAt lines index).contains '|') then false
  else is_table_divider (lineAt lines (index + 1))

/-- Horizontal-rule pattern `^(\*{3,}|_{3,})$` on a stripped line. -/
def hrMatch (s : Line) : Bool :=
  decide (s.length ≥ 3) && (s.all (fun c => c == '*') || s.all (fun c => c == '_'))

/-- `FOOTNOTE_DEF_RE = ^\[\^(?P<label>[^\]]+)\]:\s*(?P<body>.*)$`: returns
(label, body-after-leading-whitespace).  `[^\]]+` is a maximal munch up to
the first `]`, which must be followed by `:`. -/
def footnoteDefMatch (line : Line) : Option (Line × Line) :=
  match line with
  | '[' :: '^' :: rest =>
    let label := rest.takeWhile (fun c => c ≠ ']')
    if label.isEmpty then none
    else
      match rest.dropWhile (fun c => c ≠ ']') with
      | ']' :: ':' :: tail => some (label, tail.dropWhile isPySpace)
      | _ => none
  | _ => none

/-- `LINK_DEF_RE = ^\[(?P<label>[^\]]+)\]:\s*(?P<url>\S+)(?:\s+"(?P<title>[^"]*)")?$`:
returns (label, url, optional title).  `\S+` is maximal (no backtracking can
help, as a shorter URL leaves a non-space character where `\s+`/`$` is
required). -/
def linkDefMatch (line : Line) : Option (Line × Line × Option Line) :=
  match line with
  | '[' :: rest =>
    let label := rest.takeWhile (fun c => c ≠ ']')
    if label.isEmpty then none
    else
      match rest.dropWhile (fun c => c ≠ ']') with
      | ']' :: ':' :: tail =>
        let afterWs := tail.dropWhile isPySpace
        let url := afterWs.takeWhile (fun c => !(isPySpace c))
        if url.isEmpty then none
        else
          let afterUrl := afterWs.dropWhile (fun c => !(isPySpace c))
          if afterUrl.isEmpty then some (label, url, none)
          else
            let ws2 := afterUrl.takeWhile isPySpace
            let afterWs2 := afterUrl.dropWhile isPySpace
            if ws2.isEmpty then none
            else
              match afterWs2 with
              | '"' :: t =>
                let title := t.takeWhile (fun c => c ≠ '"')
                match t.dropWhile (fun c => c ≠ '"') with
                | ['"'] => some (label, url, some title)
                | _ => none
              | _ => none
      | _ => none
  | _ => none

/-- Title part `(?:\s+"([^"]+)")?\)` of `IMAGE_BLOCK_RE` at a given suffix:
at least one whitespace, a quoted nonempty title, then `)`. -/
def imTitle (rest : Line) : Option Line :=
  let ws := rest.takeWhile isPySpace
  if ws.isEmpty then none
  else
    match rest.dropWhile isPySpace with
    | '"' :: t =>
      let title := t.takeWhile (fun c => c ≠ '"')
      if title.isEmpty then none
      else
        match t.dropWhile (fun c => c ≠ '"') with
        | '"' :: ')' :: _ => some title
        | _ => none
    | _ => none

/-- After the lazy `\S+?` source of `IMAGE_BLOCK_RE`: the greedy optional
title group is tried first, then a bare `)`. -/
def imAfterSrc (rest : Line) : Option (Option Line) :=
  match imTitle rest with
  | some t => some (some t)
  | none =>
    match rest with
    | ')' :: _ => some none
    | _ => none

/-- Lazy `\S+?` of `IMAGE_BLOCK_RE`: shortest nonempty run of non-space
characters whose continuation matches. -/
def imSrc : Line → Line → Option (Line × Option Line)
  | [], _ => none
  | c :: rest, acc =>
    if isPySpace c then none
    else
      let acc2 := c :: acc
      match imAfterSrc rest with
      | some topt => some (acc2.reverse, topt)
      | none => imSrc rest acc2

/-- Lazy `(?P<alt>.*?)\]\(` of `IMAGE_BLOCK_RE`: the shortest alt text whose
continuation matches; on failure the candidate `](` is absorbed into the alt
text and the scan continues (regex backtracking). -/
def imAlt : Line → Line → Option (Line × Line × Option Line)
  | rest, acc =>
    match
      (match rest with
       | ']' :: '(' :: tail =>
         (imSrc tail []).map (fun st => (acc.reverse, st.1, st.2))
       | _ => none)
    with
    | some r => some r
    | none =>
      match rest with
      | c :: rest2 => imAlt rest2 (c :: acc)
      | [] => none

/-- `IMAGE_BLOCK_RE.match(s)`: `!\[(?P<alt>.*?)\]\((?P<src>\S+?)(?:\s+"(?P<title>[^"]+)")?\)`
anchored at the start, trailing text allowed. -/
def imageMatch (s : Line) : Option (Line × Line × Option Line) :=
  match s with
  | '!' :: '[' :: rest => imAlt rest []
  | _ => none

/-- `SUBTITLE_KEY_RE = ^subtitle_(\d+)$` (case-insensitive); returns the
numeric value of the suffix. -/
def subtitleKeyMatch (key : Line) : Option Nat :=
  let lk := pyLower key
  if lineStarts lk (tl "subtitle_") then
    let ds := lk.drop 9
    if ds.isEmpty then none
    else if ds.all Char.isDigit then
      some (ds.foldl (fun a c => a * 10 + (c.toNat - 48)) 0)
    else none
  else none

/-! ## The block data model -/

/-- The `Block` dataclass: one dynamic record carrying the fields of every
block kind (the source uses a single dataclass with defaults).  List items
are (text, optional nested block) pairs, mirroring the `ListItem`
dataclass. -/
inductive Block where
  | mk (kind : Line) (text : Line) (level : Nat) (language : Line)
      (items : List (Line × Option Block))
      (paragraphs : List (List Line)) (caption : Line)
      (headers : List Line) (rows : List (List Line))
      (src : Line) (alt : Line)

/-- Field accessor `kind`. -/
def Block.kind : Block → Line
  | .mk k _ _ _ _ _ _ _ _ _ _ => k

/-- Field accessor `text`. -/
def Block.text : Block → Line
  | .mk _ t _ _ _ _ _ _ _ _ _ => t

/-- Field accessor `level`. -/
def Block.level : Block → Nat
  | .mk _ _ l _ _ _ _ _ _ _ _ => l

/-- Field accessor `language`. -/
def Block.language : Block → Line
  | .mk _ _ _ lg _ _ _ _ _ _ _ => lg

/-- Field accessor `items`. -/
def Block.items : Block → List (Line × Option Block)
  | .mk _ _ _ _ it _ _ _ _ _ _ => it

/-- Field accessor `paragraphs`. -/
def Block.paragraphs : Block → List (List Line)
  | .mk _ _ _ _ _ p _ _ _ _ _ => p

/-- Field accessor `caption`. -/
def Block.caption : Block → Line
  | .mk _ _ _ _ _ _ c _ _ _ _ => c

/-- Field accessor `headers`. -/
def Block.headers : Block → List Line
  | .mk _ _ _ _ _ _ _ h _ _ _ => h

/-- Field accessor `rows`. -/
def Block.rows : Block → List (List Line)
  | .mk _ _ _ _ _ _ _ _ r _ _ => r

/-- Field accessor `src`. -/
def Block.src : Block → Line
  | .mk _ _ _ _ _ _ _ _ _ s _ => s

/-- Field accessor `alt`. -/
def Block.alt : Block → Line
  | .mk _ _ _ _ _ _ _ _ _ _ a => a

/-- `Block(kind=kind)` with every other field defaulted. -/
def Block.basic (kind : Line) : Block :=
  .mk kind [] 0 [] [] [] [] [] [] [] []

/-- `Block(kind=kind, text=text)`. -/
def Block.withText (kind : Line) (text : Line) : Block :=
  .mk kind text 0 [] [] [] [] [] [] [] []

/-- `Block(kind=kind, level=level, text=text)` (headings). -/
def Block.headingB (kind : Line) (level : Nat) (text : Line) : Block :=
  .mk kind text level [] [] [] [] [] [] [] []

/-- `Block(kind=kind, items=items)` (lists). -/
def Block.listB (kind : Line) (items : List (Line × Option Block)) : Block :=
  .mk kind [] 0 [] items [] [] [] [] [] []

/-- `Block(kind="blockquote", paragraphs=paragraphs)`. -/
def Block.quoteB (paragraphs : List (List Line)) : Block :=
  .mk (tl "blockquote") [] 0 [] [] paragraphs [] [] [] [] []

/-- `Block(kind="code", language=language, text=text)`. -/
def Block.codeB (language : Line) (text : Line) : Block :=
  .mk (tl "code") text 0 language [] [] [] [] [] [] []

/-- `Block(kind="image", alt=alt, src=src, caption=caption)`. -/
def Block.imageB (alt src caption : Line) : Block :=
  .mk (tl "image") [] 0 [] [] [] caption [] [] src alt

/-- `Block(kind="table", headers=headers, rows=rows, caption=caption)`. -/
def Block.tableB (headers : List Line) (rows : List (List Line))
    (caption : Line) : Block :=
  .mk (tl "table") [] 0 [] [] [] caption headers rows [] []

/-! ## Table parsing -/

/-- `split_table_cells`. -/
def split_table_cells (line : Line) : List Line :=
  let stripped := pyStrip line
  if stripped.isEmpty then []
  else
    let working :=
      ((stripped.dropWhile (fun c => c == '|')).reverse.dropWhile
        (fun c => c == '|')).reverse
    (splitOnChar '|' working).map pyStrip

/-- `normalize_cells`: pad short rows with empty cells, truncate long ones. -/
def normalize_cells (cells : List Line) (width : Nat) : List Line :=
  if cells.length < width then cells ++ List.replicate (width - cells.length) []
  else if cells.length > width then cells.take width
  else cells

/-- Data-row collection loop of `parse_table_block`: stops at the end of the
buffer, a blank line, or a line without a pipe. -/
def ptbRows (fuel : Nat) (lines : List Line) (idx : Nat) :
    List (List Line) × Nat :=
  match fuel with
  | 0 => ([], idx)
  | fuel + 1 =>
    if idx < lines.length then
      let current := lineAt lines idx
      if pyStrip current = [] then ([], idx)
      else if !(current.contains '|') then ([], idx)
      else
        let r := ptbRows fuel lines (idx + 1)
        (split_table_cells current :: r.1, r.2)
    else ([], idx)

/-- Trailing-blank-line skip of `parse_table_block`, blanking the skipped
lines in place. -/
def ptbSkipBlanks (fuel : Nat) (lines : List Line) (idx : Nat) :
    List Line × Nat :=
  match fuel with
  | 0 => (lines, idx)
  | fuel + 1 =>
    if idx < lines.length ∧ pyStrip (lineAt lines idx) = [] then
      ptbSkipBlanks fuel (setLine lines idx) (idx + 1)
    else (lines, idx)

/-- Tail of the caption pattern after the `Table`/`Caption` keyword:
`\s*:\s*(.+)$`.  Applied to a stripped line, so the final `.+` group has no
trailing whitespace to backtrack over. -/
def capAfter (rest : Line) : Option Line :=
  match rest.dropWhile isPySpace with
  | ':' :: tail =>
    let content := tail.dropWhile isPySpace
    if content.isEmpty then none else some (pyStrip content)
  | _ => none

/-- `^\s*(?:Table|Caption)\s*:\s*(.+)$` (IGNORECASE) on a stripped line,
returning the stripped caption group. -/
def captionLineMatch (s : Line) : Option Line :=
  let low := pyLower s
  if lineStarts low (tl "table") then capAfter (s.drop 5)
  else if lineStarts low (tl "caption") then capAfter (s.drop 7)
  else none

/-- `parse_table_block(lines, start)`: returns the table block, the next
cursor position, and the (possibly blanked) line buffer. -/
def parse_table_block (lines : List Line) (start : Nat) :
    Except Line (Block × Nat × List Line) :=
  let header_cells := split_table_cells (lineAt lines start)
  let divider_idx := start + 1
  if !(is_table_divider (lineAt lines divider_idx)) then
    .error (tl "Invalid table divider line")
  else
    let rres := ptbRows (lines.length + 1) lines (divider_idx + 1)
    let normalized_rows :=
      rres.1.map (fun row => normalize_cells row header_cells.length)
    let sres := ptbSkipBlanks (lines.length + 1) lines rres.2
    let lines1 := sres.1
    let idx1 := sres.2
    if idx1 < lines1.length then
      match captionLineMatch (pyStrip (lineAt lines1 idx1)) with
      | some cap =>
        .ok (Block.tableB header_cells normalized_rows cap, idx1 + 1,
          setLine lines1 idx1)
      | none =>
        .ok (Block.tableB header_cells normalized_rows [], idx1, lines1)
    else
      .ok (Block.tableB header_cells normalized_rows [], idx1, lines1)

/-! ## List parsing -/

/-- `get_list_indent`: number of leading whitespace characters. -/
def get_list_indent (line : Line) : Nat :=
  (line.takeWhile isPySpace).length

/-- The recursive item loop of `parse_list_items`.  An iteration consumes the
item line, checks the following line for a strictly deeper list marker of
either kind (which starts a nested list parsed recursively with the nested
line's own kind and indentation), and continues at the same level;
non-matching, dedented, deeper-non-list and blank lines all terminate the
level. -/
def plAux : Nat → List Line → Nat → Line → Nat →
    List (Line × Option Block) × Nat
  | 0, _, i, _, _ => ([], i)
  | Nat.succ fuel, lines, i, list_kind, base_indent =>
    if i < lines.length then
      let line := lineAt lines i
      if pyStrip line = [] then ([], i)
      else
        let indent := get_list_indent line
        if indent < base_indent then ([], i)
        else
          let consume : Line → List (Line × Option Block) × Nat :=
            fun item_text =>
              let i1 := i + 1
              if i1 < lines.length then
                let next_line := lineAt lines i1
                let next_indent := get_list_indent next_line
                let next_ul := ulMatch next_line
                let next_ol := olMatch next_line
                if next_indent > base_indent ∧ (next_ul.isSome ∨ next_ol.isSome) then
                  let nested_kind := if next_ul.isSome then tl "ul" else tl "ol"
                  let nres := plAux fuel lines i1 nested_kind next_indent
                  let rres := plAux fuel lines nres.2 list_kind base_indent
                  ((item_text, some (Block.listB nested_kind nres.1)) :: rres.1,
                    rres.2)
                else
                  let rres := plAux fuel lines i1 list_kind base_indent
                  ((item_text, none) :: rres.1, rres.2)
              else
                let rres := plAux fuel lines i1 list_kind base_indent
                ((item_text, none) :: rres.1, rres.2)
          let olTry : Unit → List (Line × Option Block) × Nat := fun _ =>
            match olMatch line with
            | some wdt =>
              if indent = base_indent ∧ list_kind = tl "ol" then consume wdt.2.2
              else ([], i)
            | none => ([], i)
          match ulMatch line with
          | some wt =>
            if indent = base_indent ∧ list_kind = tl "ul" then consume wt.2
            else olTry ()
          | none => olTry ()
    else ([], i)

/-- `parse_list_items(lines, start, list_kind, base_indent)`.  The fuel
`lines.length + 1` bounds the recursion: every recursive call starts strictly
deeper in the buffer. -/
def parse_list_items (lines : List Line) (start : Nat) (list_kind : Line)
    (base_indent : Nat) : List (Line × Option Block) × Nat :=
  plAux (lines.length + 1) lines start list_kind base_indent

/-! ## Sidenote registry and inline renderer -/

/-- A collected link-reference definition. -/
structure LinkDef where
  url : Line
  title : Line
deriving DecidableEq

/-- One memoized sidenote entry: assigned id, 1-based display number, and the
rendered body HTML. -/
structure Entry where
  id : Line
  number : Nat
  html : Line
deriving DecidableEq

/-- `SidenoteRegistry`: footnote definitions, insertion-ordered memoized
entries, and the display-number counter. -/
structure SidenoteRegistry where
  definitions : List (Line × Line)
  entries : List (Line × Entry)
  counter : Nat
deriving DecidableEq

/-- The `__init__` definition cleanup
`{k.strip(): v for k, v in definitions.items() if k}`. -/
def initDefs (definitions : List (Line × Line)) : List (Line × Line) :=
  definitions.foldl
    (fun acc kv => if kv.1 ≠ [] then alInsert (pyStrip kv.1) kv.2 acc else acc) []

/-- `SidenoteRegistry(definitions)`. -/
def SidenoteRegistry.init (definitions : List (Line × Line)) : SidenoteRegistry :=
  ⟨initDefs definitions, [], 0⟩

/-- Decimal rendering of a number, as Python's f-string interpolation. -/
def natDigits (n : Nat) : Line := Nat.toDigits 10 n

/-- The inline marker markup returned by `render_reference` for an entry. -/
def inlineMarkup (e : Entry) : Line :=
  tl "<label for=\"" ++ e.id ++
    tl "\" class=\"sidenote-number\" data-number=\"" ++ natDigits e.number ++
    tl "\"></label><input type=\"checkbox\" id=\"" ++ e.id ++
    tl "\" class=\"margin-toggle\"><span class=\"sidenote sidenote--inline\"><span class=\"sidenote__marker\" data-number=\"" ++
    natDigits e.number ++ tl "\"></span>" ++ e.html ++ tl "</span>"

/-- One rail-positioned span emitted by `render_rail_spans` for an entry. -/
def railSpanOf (e : Entry) : Line :=
  tl "<span class=\"sidenote sidenote--rail\" data-sidenote-ref=\"" ++ e.id ++
    tl "\"><span class=\"sidenote__marker\" data-number=\"" ++
    natDigits e.number ++ tl "\"></span>" ++ e.html ++ tl "</span>"

/-- Error text used when a fuel bound is exhausted (models nontermination;
never reached in the runs the theorems below describe). -/
def renderFuelMsg : Line := tl "render fuel exhausted"

/-- The backtick character. -/
def backtickChar : Char := Char.ofNat 96

/-- The flush of pending plain text in `render_inline`: if the window
`[start, e)` is nonempty, its text is rendered through
`render_text_segment` and appended. -/
def flushAcc (text : Line) (start e : Nat) (acc : List Line) : List Line :=
  if start < e then acc ++ [render_text_segment (pySlice text start e)] else acc

mutual

/-- The scan loop of `render_inline`: position `i`, pending plain-text window
start `start`, accumulated output pieces `acc`, and the threaded sidenote
registry (`none` when sidenotes are disabled).  Branches appear in source
order: code span, inline/reference link, sidenote reference, backslash
escape, bold, italic, strikethrough, highlight, autolink, plain text. -/
def renderInlineAux : Nat → Line → Bool → List (Line × LinkDef) → Nat → Nat →
    List Line → Option SidenoteRegistry →
    Except Line (Line × Option SidenoteRegistry)
  | 0, _, _, _, _, _, _, _ => .error renderFuelMsg
  | Nat.succ fuel, text, allowLinks, linkDefs, i, start, acc, sn =>
    if i < text.length then
      let c := text.getD i ' '
      let deflt : Unit → Except Line (Line × Option SidenoteRegistry) :=
        fun _ => renderInlineAux fuel text allowLinks linkDefs (i + 1) start acc sn
      let br9 : Unit → Except Line (Line × Option SidenoteRegistry) := fun _ =>
        if c = '<' ∧ i + 1 < text.length then
          match findSub text ['>'] (i + 1) with
          | some close =>
            let potential := pySlice text (i + 1) close
            if lineStarts potential (tl "http://") ∨
                lineStarts potential (tl "https://") ∨
                lineStarts potential (tl "mailto:") then
              let acc1 := flushAcc text start i acc
              renderInlineAux fuel text allowLinks linkDefs (close + 1) (close + 1)
                (acc1 ++ [tl "<a class=\"highlight\" href=\"" ++
                  html_escape potential ++ tl "\">" ++ html_escape potential ++
                  tl "</a>"]) sn
            else deflt ()
          | none => deflt ()
        else deflt ()
      let br8 : Unit → Except Line (Line × Option SidenoteRegistry) := fun _ =>
        if c = '=' ∧ i + 1 < text.length ∧ text.getD (i + 1) ' ' = '=' then
          match findSub text (tl "==") (i + 2) with
          | some close =>
            let acc1 := flushAcc text start i acc
            match renderInlineAux fuel (pySlice text (i + 2) close) allowLinks
                linkDefs 0 0 [] sn with
            | .error e => .error e
            | .ok (inner, sn1) =>
              renderInlineAux fuel text allowLinks linkDefs (close + 2) (close + 2)
                (acc1 ++ [tl "<mark>" ++ inner ++ tl "</mark>"]) sn1
          | none => br9 ()
        else br9 ()
      let br7 : Unit → Except Line (Line × Option SidenoteRegistry) := fun _ =>
        if c = '~' ∧ i + 1 < text.length ∧ text.getD (i + 1) ' ' = '~' then
          match findSub text (tl "~~") (i + 2) with
          | some close =>
            let acc1 := flushAcc text start i acc
            match renderInlineAux fuel (pySlice text (i + 2) close) allowLinks
                linkDefs 0 0 [] sn with
            | .error e => .error e
            | .ok (inner, sn1) =>
              renderInlineAux fuel text allowLinks linkDefs (close + 2) (close + 2)
                (acc1 ++ [tl "<del>" ++ inner ++ tl "</del>"]) sn1
          | none => br8 ()
        else br8 ()
      let br6 : Unit → Except Line (Line × Option SidenoteRegistry) := fun _ =>
        if c = '*' ∧ i + 1 < text.length ∧ text.getD (i + 1) ' ' ≠ '*' then
          match findSub text ['*'] (i + 1) with
          | some close =>
            if close + 1 ≥ text.length ∨ text.getD (close + 1) ' ' ≠ '*' then
              let acc1 := flushAcc text start i acc
              match renderInlineAux fuel (pySlice text (i + 1) close) allowLinks
                  linkDefs 0 0 [] sn with
              | .error e => .error e
              | .ok (inner, sn1) =>
                renderInlineAux fuel text allowLinks linkDefs (close + 1) (close + 1)
                  (acc1 ++ [tl "<em>" ++ inner ++ tl "</em>"]) sn1
            else br7 ()
          | none => br7 ()
        else br7 ()
      let br5 : Unit → Except Line (Line × Option SidenoteRegistry) := fun _ =>
        if c = '*' ∧ i + 1 < text.length ∧ text.getD (i + 1) ' ' = '*' then
          match findSub text (tl "**") (i + 2) with
          | some close =>
            let acc1 := flushAcc text start i acc
            match renderInlineAux fuel (pySlice text (i + 2) close) allowLinks
                linkDefs 0 0 [] sn with
            | .error e => .error e
            | .ok (inner, sn1) =>
              renderInlineAux fuel text allowLinks linkDefs (close + 2) (close + 2)
                (acc1 ++ [tl "<strong>" ++ inner ++ tl "</strong>"]) sn1
          | none => br6 ()
        else br6 ()
      let br4 : Unit → Except Line (Line × Option SidenoteRegistry) := fun _ =>
        if c = '\\' then
          let acc1 := flushAcc text start i acc
          if i + 1 < text.length then
            renderInlineAux fuel text allowLinks linkDefs (i + 2) (i + 2)
              (acc1 ++ [render_text_segment [text.getD (i + 1) ' ']]) sn
          else
            renderInlineAux fuel text allowLinks linkDefs (i + 1) i acc1 sn
        else br5 ()
      let br3 : Unit → Except Line (Line × Option SidenoteRegistry) := fun _ =>
        if c = '[' ∧ i + 1 < text.length ∧ text.getD (i + 1) ' ' = '^' then
          match find_closing text (i + 2) ']' with
          | some close2 =>
            let label := pyStrip (pySlice text (i + 2) close2)
            if label = [] then
              renderInlineAux fuel text allowLinks linkDefs (i + 1) start acc sn
            else
              match sn with
              | none =>
                .error (tl "Sidenote reference [^" ++ label ++
                  tl "] found but sidenotes are not enabled")
              | some reg =>
                let acc1 := flushAcc text start i acc
                match SidenoteRegistry.render_reference fuel reg label with
                | .error e => .error e
                | .ok (markup, reg2) =>
                  renderInlineAux fuel text allowLinks linkDefs (close2 + 1)
                    (close2 + 1) (acc1 ++ [markup]) (some reg2)
          | none => br4 ()
        else br4 ()
      if c = backtickChar then
        let acc1 := flushAcc text start i acc
        match findSub text [backtickChar] (i + 1) with
        | none =>
          let code_content := pySlice text (i + 1) text.length
          renderInlineAux fuel text allowLinks linkDefs text.length text.length
            (acc1 ++ [tl "<code>" ++ html_escape code_content ++ tl "</code>"]) sn
        | some j =>
          let code_content := pySlice text (i + 1) j
          renderInlineAux fuel text allowLinks linkDefs (j + 1) (j + 1)
            (acc1 ++ [tl "<code>" ++ html_escape code_content ++ tl "</code>"]) sn
      else if allowLinks ∧ c = '[' then
        match find_closing text (i + 1) ']' with
        | some close =>
          let try2b : Unit → Except Line (Line × Option SidenoteRegistry) :=
            fun _ =>
              if close + 1 < text.length ∧ text.getD (close + 1) ' ' = '[' ∧
                  linkDefs ≠ [] then
                match find_closing text (close + 2) ']' with
                | some refClose =>
                  let refKeyRaw := pyLower (pyStrip (pySlice text (close + 2) refClose))
                  let refKey :=
                    if refKeyRaw = [] then
                      pyLower (pyStrip (pySlice text (i + 1) close))
                    else refKeyRaw
                  match alGet refKey linkDefs with
                  | some ld =>
                    let acc1 := flushAcc text start i acc
                    match renderInlineAux fuel (pySlice text (i + 1) close) false
                        linkDefs 0 0 [] none with
                    | .error e => .error e
                    | .ok (label, _) =>
                      renderInlineAux fuel text allowLinks linkDefs (refClose + 1)
                        (refClose + 1)
                        (acc1 ++ [tl "<a class=\"highlight\" href=\"" ++
                          html_escape ld.url ++ tl "\">" ++ label ++ tl "</a>"]) sn
                  | none => br3 ()
                | none => br3 ()
              else br3 ()
          if close + 1 < text.length ∧ text.getD (close + 1) ' ' = '(' then
            match find_closing text (close + 2) ')' with
            | some endi =>
              let acc1 := flushAcc text start i acc
              match renderInlineAux fuel (pySlice text (i + 1) close) false
                  linkDefs 0 0 [] none with
              | .error e => .error e
              | .ok (label, _) =>
                renderInlineAux fuel text allowLinks linkDefs (endi + 1) (endi + 1)
                  (acc1 ++ [tl "<a class=\"highlight\" href=\"" ++
                    html_escape (pySlice text (close + 2) endi) ++ tl "\">" ++
                    label ++ tl "</a>"]) sn
            | none => try2b ()
          else try2b ()
        | none => br3 ()
      else br3 ()
    else
      .ok ((flushAcc text start text.length acc).flatten, sn)

/-- `SidenoteRegistry.render_reference(label)`: trims the label, fails when
it is empty or has no definition, memoizes a freshly numbered and rendered
entry on first reference, and returns the inline marker markup. -/
def SidenoteRegistry.render_reference : Nat → SidenoteRegistry → Line →
    Except Line (Line × SidenoteRegistry)
  | 0, _, _ => .error renderFuelMsg
  | Nat.succ fuel, st, label =>
    let key := pyStrip label
    if key = [] then .error (tl "Sidenote reference missing label")
    else
      match alGet key st.definitions with
      | none =>
        .error (tl "Sidenote reference [^" ++ key ++
          tl "] has no matching definition")
      | some defBody =>
        match alGet key st.entries with
        | some entry => .ok (inlineMarkup entry, st)
        | none =>
          let counter := st.counter + 1
          let note_id := tl "sn" ++ natDigits (counter - 1)
          let content_text := collapse_text defBody
          match renderInlineAux fuel content_text true [] 0 0 [] none with
          | .error e => .error e
          | .ok (content_html, _) =>
            let entry : Entry := ⟨note_id, counter, content_html⟩
            .ok (inlineMarkup entry,
              ⟨st.definitions, alInsert key entry st.entries, counter⟩)

end

/-- `render_inline(text, allow_links, sidenotes, link_defs)`. -/
def render_inline (fuel : Nat) (text : Line) (allowLinks : Bool)
    (sidenotes : Option SidenoteRegistry) (linkDefs : List (Line × LinkDef)) :
    Except Line (Line × Option SidenoteRegistry) :=
  renderInlineAux fuel text allowLinks linkDefs 0 0 [] sidenotes

/-- The `parts` accumulation loop of `render_rail_spans`. -/
def railLoop : List (Line × Entry) → List Line → List Line
  | [], parts => parts
  | (_, e) :: rest, parts => railLoop rest (parts ++ [railSpanOf e])

/-- `SidenoteRegistry.render_rail_spans()`: one rail span per memoized entry,
in first-reference order, joined by newlines; empty when no entry exists. -/
def SidenoteRegistry.render_rail_spans (st : SidenoteRegistry) : Line :=
  if st.entries = [] then []
  else joinNl (railLoop st.entries [])

/-! ## Reference harvester -/

/-- Continuation-line loop of the footnote harvester: indented lines (four
spaces or a tab) are appended with their indentation stripped and blanked in
place. -/
def fnCont (fuel : Nat) (lines : List Line) (i : Nat) (acc : List Line) :
    List Line × Nat × List Line :=
  match fuel with
  | 0 => (lines, i, acc)
  | fuel + 1 =>
    if i < lines.length then
      let continuation := lineAt lines i
      if lineStarts continuation (tl "    ") || lineStarts continuation ['\t'] then
        fnCont fuel (setLine lines i) (i + 1) (acc ++ [pyLstrip continuation])
      else (lines, i, acc)
    else (lines, i, acc)

/-- Footnote-definition harvesting pass of `parse_markdown_body`: matching
lines and their continuations are collected into the definition map and
blanked in place. -/
def fnHarvest (fuel : Nat) (lines : List Line) (i : Nat)
    (defs : List (Line × Line)) : List Line × List (Line × Line) :=
  match fuel with
  | 0 => (lines, defs)
  | fuel + 1 =>
    if i < lines.length then
      match footnoteDefMatch (lineAt lines i) with
      | some lb =>
        let label := pyStrip lb.1
        let body_text := pyRstrip lb.2
        let collected := if body_text ≠ [] then [pyStrip body_text] else []
        let cres := fnCont (lines.length + 1) (setLine lines i) (i + 1) collected
        fnHarvest fuel cres.1 cres.2.1
          (alInsert label (pyStrip (joinNl cres.2.2)) defs)
      | none => fnHarvest fuel lines (i + 1) defs
    else (lines, defs)

/-- Link-definition harvesting pass: every matching line is recorded (label
lower-cased) and blanked; the cursor always advances by one. -/
def lnHarvest : List Line → List (Line × LinkDef) →
    List Line × List (Line × LinkDef)
  | [], defs => ([], defs)
  | l :: ls, defs =>
    match linkDefMatch l with
    | some lut =>
      let defs1 := alInsert (pyLower (pyStrip lut.1))
        ⟨pyStrip lut.2.1, pyStrip (lut.2.2.getD [])⟩ defs
      let r := lnHarvest ls defs1
      ([] :: r.1, r.2)
    | none =>
      let r := lnHarvest ls defs
      (l :: r.1, r.2)

/-! ## Block scanner (`parse_markdown_body`) -/

/-- Classification tags produced by `upcoming_block_type`. -/
inductive BlockTag where
  | h1 | math | h3 | h2 | hr | blockquote | ul | ol | code | image | table
deriving DecidableEq

/-- `upcoming_block_type(line)` (the closure reads `lines` and the cursor `i`
for the table lookahead); unsupported heading depth is a fatal error. -/
def upcoming_block_type (lines : List Line) (i : Nat) (line : Line) :
    Except Line (Option BlockTag) :=
  let stripped := pyStrip line
  if stripped = [] then .ok none
  else if lineStarts stripped (tl "# ") then .ok (some .h1)
  else if stripped = tl "\\[" then .ok (some .math)
  else if lineStarts stripped (tl "### ") then .ok (some .h3)
  else if lineStarts stripped (tl "## ") then .ok (some .h2)
  else if lineStarts stripped (tl "#") then
    .error (tl "Unsupported heading level; only a single '# ' title and h2/h3 are allowed")
  else if hrMatch stripped then .ok (some .hr)
  else if lineStarts stripped (tl ">") then .ok (some .blockquote)
  else if lineStarts stripped (tl "- ") then .ok (some .ul)
  else if olUpcoming stripped then .ok (some .ol)
  else if lineStarts stripped (tl "```") then .ok (some .code)
  else if (imageMatch stripped).isSome then .ok (some .image)
  else if is_table_start lines i then .ok (some .table)
  else .ok none

/-- Generic forward scan: smallest index `≥ i` whose line satisfies `p`. -/
def scanFor (fuel : Nat) (lines : List Line) (i : Nat) (p : Line → Bool) :
    Option Nat :=
  match fuel with
  | 0 => none
  | fuel + 1 =>
    if i < lines.length then
      if p (lineAt lines i) then some i else scanFor fuel lines (i + 1) p
    else none

/-- Slice `lines[a:b]` of the line buffer. -/
def sliceLines (lines : List Line) (a b : Nat) : List Line :=
  (lines.drop a).take (b - a)

/-- Paragraph-splitting of collected blockquote lines: blank quote lines
separate paragraphs. -/
def bqParas : List Line → List (List Line) → List Line → List (List Line)
  | [], paras, cur => if cur ≠ [] then paras ++ [cur] else paras
  | q :: rest, paras, cur =>
    if pyStrip q = [] then
      if cur ≠ [] then bqParas rest (paras ++ [cur]) [] else bqParas rest paras []
    else bqParas rest paras (cur ++ [q])

/-- Paragraph-accumulation loop: collects lines until a blank line or the
start of another recognised block; heading-depth errors raised by the
classifier propagate. -/
def paraLoop (fuel : Nat) (lines : List Line) (i : Nat) (acc : List Line) :
    Except Line (List Line × Nat) :=
  match fuel with
  | 0 => .error renderFuelMsg
  | fuel + 1 =>
    if i < lines.length then
      let current := lineAt lines i
      if pyStrip current = [] then .ok (acc, i)
      else
        match upcoming_block_type lines i current with
        | .error e => .error e
        | .ok (some _) => .ok (acc, i)
        | .ok none => paraLoop fuel lines (i + 1) (acc ++ [current])
    else .ok (acc, i)

/-- The mutable state of the `parse_markdown_body` main loop. -/
structure PState where
  lines : List Line
  blocks : List Block
  pendingCaption : Option Line
  docTitle : Option Line
  railChunks : List Line

/-- The main block-scanning loop of `parse_markdown_body`, in source branch
order: blank skip, pre-table caption, rail-right fence, raw HTML run, then
the `upcoming_block_type` dispatch (math, title, headings, rule, quote,
lists, code fence, image, table, paragraph fallback). -/
def pmbLoop : Nat → PState → Nat → Except Line PState
  | 0, _, _ => .error renderFuelMsg
  | Nat.succ fuel, st, i =>
    if i < st.lines.length then
      let line := lineAt st.lines i
      let stripped := pyStrip line
      if stripped = [] then pmbLoop fuel st (i + 1)
      else
        let typed : Unit → Except Line PState := fun _ =>
          match upcoming_block_type st.lines i line with
          | .error e => .error e
          | .ok (some BlockTag.math) =>
            match scanFor (st.lines.length + 1) st.lines (i + 1)
                (fun l => pyStrip l = tl "\\]") with
            | none => .error (tl "Unterminated math block (missing '\\]')")
            | some endk =>
              let math_tex := pyStrip (joinNl (sliceLines st.lines (i + 1) endk))
              pmbLoop fuel
                ⟨st.lines, st.blocks ++ [Block.withText (tl "math") math_tex],
                  st.pendingCaption, st.docTitle, st.railChunks⟩ (endk + 1)
          | .ok (some BlockTag.h1) =>
            let heading_text := pyStrip (stripped.drop 2)
            if heading_text = [] then .error (tl "Title heading cannot be empty")
            else
              match st.docTitle with
              | some _ =>
                .error (tl "Multiple H1 headings found; only one title heading is allowed")
              | none =>
                pmbLoop fuel
                  ⟨st.lines, st.blocks, st.pendingCaption, some heading_text,
                    st.railChunks⟩ (i + 1)
          | .ok (some BlockTag.h2) =>
            pmbLoop fuel
              ⟨st.lines,
                st.blocks ++ [Block.headingB (tl "h2") 2 (pyStrip (stripped.drop 3))],
                st.pendingCaption, st.docTitle, st.railChunks⟩ (i + 1)
          | .ok (some BlockTag.h3) =>
            pmbLoop fuel
              ⟨st.lines,
                st.blocks ++ [Block.headingB (tl "h3") 3 (pyStrip (stripped.drop 4))],
                st.pendingCaption, st.docTitle, st.railChunks⟩ (i + 1)
          | .ok (some BlockTag.hr) =>
            pmbLoop fuel
              ⟨st.lines, st.blocks ++ [Block.basic (tl "hr")], st.pendingCaption,
                st.docTitle, st.railChunks⟩ (i + 1)
          | .ok (some BlockTag.blockquote) =>
            let k :=
              match scanFor (st.lines.length + 1) st.lines i
                  (fun l => !(lineStarts (pyLstrip l) (tl ">"))) with
              | some k => k
              | none => st.lines.length
            let quote_lines := (sliceLines st.lines i k).map (fun l =>
              let cur := (pyLstrip l).drop 1
              if lineStarts cur (tl " ") then cur.drop 1 else cur)
            pmbLoop fuel
              ⟨st.lines, st.blocks ++ [Block.quoteB (bqParas quote_lines [] [])],
                st.pendingCaption, st.docTitle, st.railChunks⟩ k
          | .ok (some BlockTag.ul) =>
            let r := parse_list_items st.lines i (tl "ul") 0
            pmbLoop fuel
              ⟨st.lines, st.blocks ++ [Block.listB (tl "ul") r.1],
                st.pendingCaption, st.docTitle, st.railChunks⟩ r.2
          | .ok (some BlockTag.ol) =>
            let r := parse_list_items st.lines i (tl "ol") 0
            pmbLoop fuel
              ⟨st.lines, st.blocks ++ [Block.listB (tl "ol") r.1],
                st.pendingCaption, st.docTitle, st.railChunks⟩ r.2
          | .ok (some BlockTag.code) =>
            let lang_raw := stripped.drop 3
            let language := if lang_raw = [] then tl "text" else pyStrip lang_raw
            match scanFor (st.lines.length + 1) st.lines (i + 1)
                (fun l => lineStarts (pyStrip l) (tl "```")) with
            | none => .error (tl "Unterminated code fence block")
            | some endk =>
              let code_body := joinNl (sliceLines st.lines (i + 1) endk)
              pmbLoop fuel
                ⟨st.lines, st.blocks ++ [Block.codeB language code_body],
                  st.pendingCaption, st.docTitle, st.railChunks⟩ (endk + 1)
          | .ok (some BlockTag.image) =>
            match imageMatch stripped with
            | none => .error (tl "Invalid image syntax")
            | some ast =>
              pmbLoop fuel
                ⟨st.lines,
                  st.blocks ++ [Block.imageB (pyStrip ast.1) (pyStrip ast.2.1)
                    (pyStrip (ast.2.2.getD []))],
                  st.pendingCaption, st.docTitle, st.railChunks⟩ (i + 1)
          | .ok (some BlockTag.table) =>
            match parse_table_block st.lines i with
            | .error e => .error e
            | .ok tres =>
              let tb := tres.1
              let tb2 :=
                match st.pendingCaption with
                | some cap =>
                  if cap ≠ [] ∧ tb.caption = [] then
                    Block.tableB tb.headers tb.rows cap
                  else tb
                | none => tb
              pmbLoop fuel
                ⟨tres.2.2, st.blocks ++ [tb2], none, st.docTitle, st.railChunks⟩
                tres.2.1
          | .ok none =>
            match paraLoop (st.lines.length + 1) st.lines i [] with
            | .error e => .error e
            | .ok pres =>
              pmbLoop fuel
                ⟨st.lines, st.blocks ++ [Block.withText (tl "paragraph") (joinNl pres.1)],
                  st.pendingCaption, st.docTitle, st.railChunks⟩ pres.2
        let rawBr : Unit → Except Line PState := fun _ =>
          if lineStarts stripped (tl "<") then
            let k :=
              match scanFor (st.lines.length + 1) st.lines i (fun l =>
                  !(decide (pyStrip l ≠ []) && lineStarts (pyStrip l) (tl "<"))) with
              | some k => k
              | none => st.lines.length
            pmbLoop fuel
              ⟨st.lines,
                st.blocks ++ [Block.withText (tl "raw_html")
                  (joinNl (sliceLines st.lines i k))],
                st.pendingCaption, st.docTitle, st.railChunks⟩ k
          else typed ()
        let railBr : Unit → Except Line PState := fun _ =>
          if lineStarts stripped (tl ":::rail-right") then
            match scanFor (st.lines.length + 1) st.lines (i + 1)
                (fun l => pyStrip l = tl ":::") with
            | none => .error (tl "Unterminated :::rail-right block")
            | some k =>
              pmbLoop fuel
                ⟨st.lines, st.blocks, st.pendingCaption, st.docTitle,
                  st.railChunks ++ [pyStrip (joinNl (sliceLines st.lines (i + 1) k))]⟩
                (k + 1)
          else rawBr ()
        if lineStarts (pyLower stripped) (tl "table:") then
          let caption_candidate :=
            pyStrip ((stripped.dropWhile (fun c => c ≠ ':')).drop 1)
          let nk := scanFor (st.lines.length + 1) st.lines (i + 1)
            (fun l => decide (pyStrip l ≠ []))
          match nk with
          | some next_idx =>
            if is_table_start st.lines next_idx then
              pmbLoop fuel
                ⟨st.lines, st.blocks, some caption_candidate, st.docTitle,
                  st.railChunks⟩ (i + 1)
            else railBr ()
          | none => railBr ()
        else railBr ()
    else .ok st

/-- `parse_markdown_body(body)`: harvest footnote and link definitions
(blanking their lines), then scan the remaining buffer into blocks.  Returns
(blocks, document title, right-rail HTML, footnote defs, link defs). -/
def parse_markdown_body (body : Line) :
    Except Line (List Block × Option Line × Line × List (Line × Line) ×
      List (Line × LinkDef)) :=
  let lines0 := splitlinesPy body
  let fn := fnHarvest (lines0.length + 1) lines0 0 []
  let ln := lnHarvest fn.1 []
  match pmbLoop (ln.1.length + 2) ⟨ln.1, [], none, none, []⟩ 0 with
  | .error e => .error e
  | .ok st =>
    .ok (st.blocks, st.docTitle,
      joinNl (st.railChunks.filter (fun ch => ch ≠ [])), fn.2, ln.2)

/-! ## Article assembler -/

/-- Python `a or b` for an optional string `a`: `a` when it is a non-empty
string, else `b`. -/
def pyOrOpt (a : Option Line) (b : Line) : Line :=
  match a with
  | some s => if s = [] then b else s
  | none => b

/-- The title resolution of `build_article`:
`(metadata.get("title") or extracted_title or "").strip()`. -/
def resolve_title (metadata : List (Line × Line)) (extracted_title : Option Line) :
    Line :=
  pyStrip (pyOrOpt (alGet (tl "title") metadata) (pyOrOpt extracted_title []))

/-- The explicit `subtitle_<N>` collection loop of
`collect_subtitle_variants` (stripped non-empty values with their numeric
index, in metadata order). -/
def subtitleExplicit : List (Line × Line) → List (Nat × Line)
  | [] => []
  | (k, v) :: rest =>
    match subtitleKeyMatch k with
    | some idx =>
      let text := pyStrip v
      if text ≠ [] then (idx, text) :: subtitleExplicit rest
      else subtitleExplicit rest
    | none => subtitleExplicit rest

/-- Stable insertion by numeric index (equal keys keep their relative
order), modelling Python's stable `list.sort(key=...)`. -/
def insertByIdx (p : Nat × Line) : List (Nat × Line) → List (Nat × Line)
  | [] => [p]
  | q :: rest => if q.1 ≤ p.1 then q :: insertByIdx p rest else p :: q :: rest

/-- Stable sort by numeric index. -/
def sortByIdx (l : List (Nat × Line)) : List (Nat × Line) :=
  l.foldl (fun acc p => insertByIdx p acc) []

/-- The fallback-key collection loop of `collect_subtitle_variants`: every
truthy fallback key, in the fixed order
`subtitle_long`, `subtitle_short`, `subtitle`, contributes its stripped
value when non-empty. -/
def subtitleFallback (metadata : List (Line × Line)) : List Line :=
  [tl "subtitle_long", tl "subtitle_short", tl "subtitle"].foldl
    (fun acc key =>
      match alGet key metadata with
      | some v =>
        if v ≠ [] then
          let text := pyStrip v
          if text ≠ [] then acc ++ [text] else acc
        else acc
      | none => acc) []

/-- `collect_subtitle_variants(metadata)`. -/
def collect_subtitle_variants (metadata : List (Line × Line)) : List Line :=
  let explicit := subtitleExplicit metadata
  if explicit ≠ [] then (sortByIdx explicit).map (fun p => p.2)
  else
    let fallback := subtitleFallback metadata
    if fallback ≠ [] then fallback
    else
      let date_value := pyStrip ((alGet (tl "date") metadata).getD [])
      if date_value ≠ [] then [date_value] else []

/-- The subtitle-variant fallback of `build_article`: the title itself when
the collected list is empty. -/
def article_subtitle_variants (metadata : List (Line × Line)) (title : Line) :
    List Line :=
  let sv := collect_subtitle_variants metadata
  if sv = [] then [title] else sv

/-- `indent_block(html, indent_level, indent_all)`. -/
def indent_block (html : Line) (indent_level : Nat) (indent_all : Bool) :
    List Line :=
  let pre := List.replicate (indent_level * 4) ' '
  match splitlinesPy html with
  | [] => []
  | l0 :: rest =>
    if indent_all then
      (l0 :: rest).map (fun l => if l ≠ [] then pre ++ l else [])
    else
      (if l0 ≠ [] then pre ++ l0 else pre) :: rest

mutual

/-- `render_list_block(block, indent_level, ...)`: renders a `ul`/`ol` block
(including task-list detection) and its nested sublists, threading the
sidenote registry through every inline render in source order. -/
def render_list_block (fuel : Nat) (block : Block) (indent_level : Nat)
    (sn : Option SidenoteRegistry) (link_defs : List (Line × LinkDef)) :
    Except Line (List Line × Option SidenoteRegistry) :=
  match fuel with
  | 0 => .error renderFuelMsg
  | fuel + 1 =>
    let indent := List.replicate (indent_level * 4) ' '
    let tag := block.kind
    let is_task_list := tag = tl "ul" ∧ block.items.any (fun it =>
      lineStarts it.1 (tl "[ ] ") || lineStarts it.1 (tl "[x] ") ||
        lineStarts it.1 (tl "[X] "))
    let head :=
      if is_task_list then indent ++ tl "<ul class=\"task-list\">"
      else indent ++ tl "<" ++ tag ++ tl ">"
    match rlbItems fuel block.items indent_level indent is_task_list sn link_defs with
    | .error e => .error e
    | .ok r => .ok (head :: r.1 ++ [indent ++ tl "</" ++ tag ++ tl ">"], r.2)

/-- Item loop of `render_list_block`: for each item, nested children are
rendered first (as in the source), then the item content. -/
def rlbItems (fuel : Nat) (items : List (Line × Option Block))
    (indent_level : Nat) (indent : Line) (is_task_list : Bool)
    (sn : Option SidenoteRegistry) (link_defs : List (Line × LinkDef)) :
    Except Line (List Line × Option SidenoteRegistry) :=
  match fuel with
  | 0 => .error renderFuelMsg
  | fuel + 1 =>
    match items with
    | [] => .ok ([], sn)
    | (item_text, ch) :: rest =>
      let chres : Except Line (Line × Option SidenoteRegistry) :=
        match ch with
        | some cb =>
          match render_list_block fuel cb (indent_level + 1) sn link_defs with
          | .error e => .error e
          | .ok r =>
            .ok (tl "\n" ++ joinNl r.1 ++ tl "\n" ++ indent ++ tl "    ", r.2)
        | none => .ok ([], sn)
      match chres with
      | .error e => .error e
      | .ok chr =>
        let rendered_children := chr.1
        let sn1 := chr.2
        let lineRes : Except Line (Line × Option SidenoteRegistry) :=
          if is_task_list ∧ lineStarts item_text (tl "[ ] ") then
            match renderInlineAux fuel (collapse_text (item_text.drop 4)) true
                link_defs 0 0 [] sn1 with
            | .error e => .error e
            | .ok cr =>
              .ok (indent ++ tl "    <li class=\"task-item\">" ++ cr.1 ++
                rendered_children ++ tl "</li>", cr.2)
          else if is_task_list ∧ (lineStarts item_text (tl "[x] ") ∨
              lineStarts item_text (tl "[X] ")) then
            match renderInlineAux fuel (collapse_text (item_text.drop 4)) true
                link_defs 0 0 [] sn1 with
            | .error e => .error e
            | .ok cr =>
              .ok (indent ++ tl "    <li class=\"task-item task-item--done\"><del>" ++
                cr.1 ++ tl "</del>" ++ rendered_children ++ tl "</li>", cr.2)
          else
            match renderInlineAux fuel (collapse_text item_text) true
                link_defs 0 0 [] sn1 with
            | .error e => .error e
            | .ok cr =>
              .ok (indent ++ tl "    <li>" ++ cr.1 ++ rendered_children ++
                tl "</li>", cr.2)
        match lineRes with
        | .error e => .error e
        | .ok lr =>
          match rlbItems fuel rest indent_level indent is_task_list lr.2 link_defs with
          | .error e => .error e
          | .ok rr => .ok (lr.1 :: rr.1, rr.2)

end

/-- Fold rendering a row of table cells (`<th>`/`<td>` lines), threading the
registry. -/
def rbCells (fuel : Nat) (cells : List Line) (pre : Line) (opening closing : Line)
    (sn : Option SidenoteRegistry) (link_defs : List (Line × LinkDef)) :
    Except Line (List Line × Option SidenoteRegistry) :=
  match cells with
  | [] => .ok ([], sn)
  | c :: rest =>
    match renderInlineAux fuel c true link_defs 0 0 [] sn with
    | .error e => .error e
    | .ok cr =>
      match rbCells fuel rest pre opening closing cr.2 link_defs with
      | .error e => .error e
      | .ok rr => .ok ((pre ++ opening ++ cr.1 ++ closing) :: rr.1, rr.2)

/-- Fold rendering the body rows of a table. -/
def rbRows (fuel : Nat) (rows : List (List Line)) (indent : Line)
    (sn : Option SidenoteRegistry) (link_defs : List (Line × LinkDef)) :
    Except Line (List Line × Option SidenoteRegistry) :=
  match rows with
  | [] => .ok ([], sn)
  | row :: rest =>
    match rbCells fuel row (indent ++ tl "            ") (tl "<td>") (tl "</td>")
        sn link_defs with
    | .error e => .error e
    | .ok cr =>
      match rbRows fuel rest indent cr.2 link_defs with
      | .error e => .error e
      | .ok rr =>
        .ok ((indent ++ tl "        <tr>") :: cr.1 ++
          [indent ++ tl "        </tr>"] ++ rr.1, rr.2)

/-- Fold rendering blockquote paragraphs. -/
def rbQuoteParas (fuel : Nat) (paras : List (List Line)) (indent : Line)
    (sn : Option SidenoteRegistry) (link_defs : List (Line × LinkDef)) :
    Except Line (List Line × Option SidenoteRegistry) :=
  match paras with
  | [] => .ok ([], sn)
  | para :: rest =>
    match renderInlineAux fuel (collapse_text (joinNl para)) true link_defs
        0 0 [] sn with
    | .error e => .error e
    | .ok cr =>
      match rbQuoteParas fuel rest indent cr.2 link_defs with
      | .error e => .error e
      | .ok rr =>
        .ok ((indent ++ tl "    <p>" ++ cr.1 ++ tl "</p>") :: rr.1, rr.2)

/-- The per-block loop of `render_blocks`, threading output lines, the
registry, the math-fragment index and the pending glyph-cache flag. -/
def rbLoop (fuel : Nat) (formatCode : Line → Line → Line)
    (blocks : List Block) (indent_level : Nat) (indent : Line)
    (link_defs : List (Line × LinkDef)) (cache_svg : Line)
    (math_htmls : List Line) (out : List Line) (sn : Option SidenoteRegistry)
    (mathIdx : Nat) (cachePending : Bool) :
    Except Line (List Line × Option SidenoteRegistry) :=
  match blocks with
  | [] => .ok (out, sn)
  | b :: rest =>
    if b.kind = tl "paragraph" then
      match renderInlineAux fuel (collapse_text b.text) true link_defs 0 0 [] sn with
      | .error e => .error e
      | .ok cr =>
        rbLoop fuel formatCode rest indent_level indent link_defs cache_svg
          math_htmls (out ++ [indent ++ tl "<p>" ++ cr.1 ++ tl "</p>"]) cr.2
          mathIdx cachePending
    else if b.kind = tl "h2" ∨ b.kind = tl "h3" then
      let lv := if b.level = 0 then (if b.kind = tl "h2" then 2 else 3) else b.level
      let tag := tl "h" ++ natDigits lv
      match renderInlineAux fuel (pyStrip b.text) true link_defs 0 0 [] sn with
      | .error e => .error e
      | .ok cr =>
        rbLoop fuel formatCode rest indent_level indent link_defs cache_svg
          math_htmls
          (out ++ [indent ++ tl "<" ++ tag ++ tl ">" ++ cr.1 ++ tl "</" ++ tag ++ tl ">"])
          cr.2 mathIdx cachePending
    else if b.kind = tl "hr" then
      rbLoop fuel formatCode rest indent_level indent link_defs cache_svg
        math_htmls (out ++ [indent ++ tl "<hr>"]) sn mathIdx cachePending
    else if b.kind = tl "ul" ∨ b.kind = tl "ol" then
      match render_list_block fuel b indent_level sn link_defs with
      | .error e => .error e
      | .ok lr =>
        rbLoop fuel formatCode rest indent_level indent link_defs cache_svg
          math_htmls (out ++ lr.1) lr.2 mathIdx cachePending
    else if b.kind = tl "blockquote" then
      match rbQuoteParas fuel b.paragraphs indent sn link_defs with
      | .error e => .error e
      | .ok qr =>
        rbLoop fuel formatCode rest indent_level indent link_defs cache_svg
          math_htmls
          (out ++ [indent ++ tl "<blockquote>"] ++ qr.1 ++
            [indent ++ tl "</blockquote>"]) qr.2 mathIdx cachePending
    else if b.kind = tl "code" then
      let code_html :=
        formatCode b.text (if b.language = [] then tl "text" else b.language)
      rbLoop fuel formatCode rest indent_level indent link_defs cache_svg
        math_htmls (out ++ indent_block code_html indent_level false) sn
        mathIdx cachePending
    else if b.kind = tl "raw_html" then
      rbLoop fuel formatCode rest indent_level indent link_defs cache_svg
        math_htmls (out ++ splitlinesPy b.text) sn mathIdx cachePending
    else if b.kind = tl "image" then
      let src := html_attr b.src
      let alt := html_attr b.alt
      if b.caption ≠ [] then
        match renderInlineAux fuel b.caption true link_defs 0 0 [] sn with
        | .error e => .error e
        | .ok cr =>
          rbLoop fuel formatCode rest indent_level indent link_defs cache_svg
            math_htmls
            (out ++ [indent ++ tl "<figure>",
              indent ++ tl "    <img src=\"" ++ src ++ tl "\" alt=\"" ++ alt ++ tl "\">",
              indent ++ tl "    <figcaption>" ++ cr.1 ++ tl "</figcaption>",
              indent ++ tl "</figure>"]) cr.2 mathIdx cachePending
      else
        rbLoop fuel formatCode rest indent_level indent link_defs cache_svg
          math_htmls
          (out ++ [indent ++ tl "<img src=\"" ++ src ++ tl "\" alt=\"" ++ alt ++ tl "\">"])
          sn mathIdx cachePending
    else if b.kind = tl "table" then
      let capRes : Except Line (List Line × Option SidenoteRegistry) :=
        if b.caption ≠ [] then
          match renderInlineAux fuel b.caption true link_defs 0 0 [] sn with
          | .error e => .error e
          | .ok cr =>
            .ok ([indent ++ tl "    <caption>" ++ cr.1 ++ tl "</caption>"], cr.2)
        else .ok ([], sn)
      match capRes with
      | .error e => .error e
      | .ok capr =>
        let headRes : Except Line (List Line × Option SidenoteRegistry) :=
          if b.headers ≠ [] then
            match rbCells fuel b.headers (indent ++ tl "            ") (tl "<th>")
                (tl "</th>") capr.2 link_defs with
            | .error e => .error e
            | .ok hr =>
              .ok ((indent ++ tl "    <thead>") :: (indent ++ tl "        <tr>") ::
                hr.1 ++ [indent ++ tl "        </tr>", indent ++ tl "    </thead>"],
                hr.2)
          else .ok ([], capr.2)
        match headRes with
        | .error e => .error e
        | .ok headr =>
          let rowsRes : Except Line (List Line × Option SidenoteRegistry) :=
            if b.rows ≠ [] then
              match rbRows fuel b.rows indent headr.2 link_defs with
              | .error e => .error e
              | .ok rr =>
                .ok ((indent ++ tl "    <tbody>") :: rr.1 ++
                  [indent ++ tl "    </tbody>"], rr.2)
            else .ok ([], headr.2)
          match rowsRes with
          | .error e => .error e
          | .ok rowsr =>
            rbLoop fuel formatCode rest indent_level indent link_defs cache_svg
              math_htmls
              (out ++ [indent ++ tl "<table>"] ++ capr.1 ++ headr.1 ++ rowsr.1 ++
                [indent ++ tl "</table>"]) rowsr.2 mathIdx cachePending
    else if b.kind = tl "math" then
      if mathIdx ≥ math_htmls.length then .error (tl "Math rendering state mismatch")
      else
        let block_lines := indent_block (math_htmls.getD mathIdx []) indent_level true
        let block_lines2 :=
          if cachePending then indent_block cache_svg indent_level true ++ block_lines
          else block_lines
        rbLoop fuel formatCode rest indent_level indent link_defs cache_svg
          math_htmls (out ++ block_lines2) sn (mathIdx + 1) false
    else .error (tl "Unsupported block type: " ++ b.kind)

/-- `render_blocks(blocks, indent_level, sidenotes, link_defs)`.  The math
collaborator is a parameter (`render_math_blocks` shells out to MathJax): it
receives every math expression of the document at once and returns the
shared glyph-cache fragment and one fragment per expression.  The code
highlighter is likewise a parameter. -/
def render_blocks (fuel : Nat) (formatCode : Line → Line → Line)
    (renderMathBlocks : List Line → Line × List Line) (blocks : List Block)
    (indent_level : Nat) (sidenotes : Option SidenoteRegistry)
    (link_defs : List (Line × LinkDef)) :
    Except Line (List Line × Option SidenoteRegistry) :=
  let math_exprs := blocks.filterMap
    (fun b => if b.kind = tl "math" then some b.text else none)
  let mres := if math_exprs ≠ [] then renderMathBlocks math_exprs else ([], [])
  rbLoop fuel formatCode blocks indent_level
    (List.replicate (indent_level * 4) ' ') link_defs mres.1 mres.2 []
    sidenotes 0 (mres.1 ≠ [])

/-- The right-rail combination of `build_article`: hand-authored rail content
first, then the generated sidenote rail, non-empty parts joined by a
newline, the whole stripped. -/
def combinedRightRail (right_rail_html generated_rail : Line) : Line :=
  pyStrip (joinNl
    (([pyStrip right_rail_html, pyStrip generated_rail]).filter (fun p => p ≠ [])))

/-- `build_article(metadata, blocks, extracted_title, right_rail_html,
sidenote_definitions, link_definitions)`, with the two collaborators as
parameters.  Resolves the title (metadata overrides the extracted heading;
neither is fatal), the subtitle variants (falling back to the title), then
renders the blocks with a fresh registry and assembles the article shell. -/
def build_article (fuel : Nat) (formatCode : Line → Line → Line)
    (renderMathBlocks : List Line → Line × List Line)
    (metadata : List (Line × Line)) (blocks : List Block)
    (extracted_title : Option Line) (right_rail_html : Line)
    (sidenote_definitions : List (Line × Line))
    (link_definitions : List (Line × LinkDef)) : Except Line Line :=
  let title := resolve_title metadata extracted_title
  if title = [] then
    .error (tl "Missing title. Provide a 'title' in front matter or start the markdown with '# Title'.")
  else
    let subtitle_variants := article_subtitle_variants metadata title
    let registry := SidenoteRegistry.init sidenote_definitions
    match render_blocks fuel formatCode renderMathBlocks blocks 3 (some registry)
        link_definitions with
    | .error e => .error e
    | .ok br =>
      let block_lines := br.1
      let finalReg := br.2.getD registry
      let attr_parts :=
        (tl "data-page-title=\"" ++ html_attr title ++ tl "\"") ::
          subtitle_variants.enum.map (fun iv =>
            tl "data-page-subtitle-" ++ natDigits iv.1 ++ tl "=\"" ++
              html_attr iv.2 ++ tl "\"")
      let generated_rail := finalReg.render_rail_spans
      let rail := combinedRightRail right_rail_html generated_rail
      let article_lines :=
        [tl "<article class=\"writing-post\" " ++ joinSpace attr_parts ++ tl ">",
          tl "    <div class=\"writing-post__layout\">",
          tl "        <div class=\"writing-post__rail\">",
          tl "            <nav class=\"writing-toc\" data-toc></nav>",
          tl "        </div>",
          tl "        <div class=\"writing-post__content\" data-toc-intro>"] ++
        block_lines ++
        [tl "        </div>"] ++
        (if rail ≠ [] then
          (tl "        <div class=\"writing-post__rail-right\">") ::
            ((splitlinesPy rail).map (fun l =>
              if l ≠ [] then tl "            " ++ l else [])) ++
            [tl "        </div>"]
        else [tl "        <div class=\"writing-post__rail-right\"></div>"]) ++
        [tl "    </div>", tl "</article>"]
      .ok (joinNl article_lines ++ tl "\n")

/-! ## General lemmas -/

/-- `alInsert` appends when the key is absent. -/
theorem alInsert_of_not_mem {α : Type} (k : Line) (v : α)
    (l : List (Line × α)) (h : alGet k l = none) :
    alInsert k v l = l ++ [(k, v)] := by
  induction l with
  | nil => rfl
  | cons p rest ih =>
    obtain ⟨k', v'⟩ := p
    by_cases hk : k' = k
    · rw [alGet, if_pos hk] at h
      exact absurd h (by simp)
    · rw [alGet, if_neg hk] at h
      simp [alInsert, hk, ih h]

/-- A value found by `alGet` is a member of the association list. -/
theorem alGet_mem {α : Type} (k : Line) (l : List (Line × α)) (v : α)
    (h : alGet k l = some v) : (k, v) ∈ l := by
  induction l with
  | nil => simp [alGet] at h
  | cons p rest ih =>
    obtain ⟨k', v'⟩ := p
    by_cases hk : k' = k
    · subst hk
      rw [alGet, if_pos rfl] at h
      obtain rfl : v' = v := by simpa using h
      simp
    · rw [alGet, if_neg hk] at h
      exact List.mem_cons_of_mem _ (ih h)

/-- A non-dropped member survives `dropWhile`. -/
theorem mem_dropWhile_of_mem (c : Char) (l : List Char) (p : Char → Bool)
    (hc : c ∈ l) (h : ¬ p c = true) : c ∈ l.dropWhile p := by
  induction l with
  | nil => simp at hc
  | cons a rest ih =>
    by_cases ha : p a = true
    · rw [List.dropWhile_cons_of_pos ha]
      rcases List.mem_cons.mp hc with rfl | hm
      · exact absurd ha h
      · exact ih hm
    · rw [List.dropWhile_cons_of_neg ha]
      exact hc

/-- A list containing a non-whitespace character does not strip to empty. -/
theorem pyStrip_ne_nil_of_mem (l : Line) (c : Char) (hc : c ∈ l)
    (hs : ¬ isPySpace c = true) : pyStrip l ≠ [] := by
  intro h
  have h1 : c ∈ pyLstrip l := mem_dropWhile_of_mem c l isPySpace hc hs
  rw [pyStrip, pyRstrip] at h
  have h2 := congrArg List.reverse h
  simp only [List.reverse_reverse, List.reverse_nil] at h2
  rw [List.dropWhile_eq_nil_iff] at h2
  exact hs (h2 c (by simpa using h1))

/-! ## Lemmas for C8 (front matter) -/

/-- `fmSplit` finds nothing when no line strips to the delimiter. -/
theorem fmSplit_none (ls : List Line)
    (h : ∀ x ∈ ls, pyStrip x ≠ tl "---") : fmSplit ls = none := by
  induction ls with
  | nil => rfl
  | cons l rest ih =>
    have h1 := h l (List.mem_cons_self l rest)
    rw [fmSplit, if_neg h1, ih (fun x hx => h x (List.mem_cons_of_mem _ hx))]

/-- `fmSplit` splits at the first delimiter line: the front section is the
longest delimiter-free initial segment, and the remainder is everything after
that delimiter. -/
theorem fmSplit_some (ls : List Line)
    (h : ls.dropWhile (fun x => decide (pyStrip x ≠ tl "---")) ≠ []) :
    fmSplit ls = some (ls.takeWhile (fun x => decide (pyStrip x ≠ tl "---")),
      (ls.dropWhile (fun x => decide (pyStrip x ≠ tl "---"))).tail) := by
  induction ls with
  | nil => simp at h
  | cons l rest ih =>
    by_cases hl : pyStrip l = tl "---"
    · rw [fmSplit, if_pos hl, List.takeWhile_cons, List.dropWhile_cons,
        if_neg (by simp [hl]), if_neg (by simp [hl])]
      rfl
    · rw [List.dropWhile_cons, if_pos (by simp [hl])] at h
      rw [fmSplit, if_neg hl, ih h, List.takeWhile_cons, List.dropWhile_cons,
        if_pos (by simp [hl]), if_pos (by simp [hl])]

/-- When every non-blank front line has a colon, `fmParseLines` succeeds with
the fold that splits each such line at its first colon. -/
theorem fmParseLines_ok (front : List Line)
    (h : ∀ x ∈ front, pyStrip x = [] ∨ ':' ∈ x) :
    ∀ md, fmParseLines front md = .ok (front.foldl
      (fun acc x => if pyStrip x = [] then acc
        else alInsert (pyStrip (x.takeWhile (fun c => c ≠ ':')))
          (pyStrip ((x.dropWhile (fun c => c ≠ ':')).drop 1)) acc) md) := by
  induction front with
  | nil => intro md; rfl
  | cons l rest ih =>
    intro md
    have h1 := h l (List.mem_cons_self l rest)
    have hrest := fun x hx => h x (List.mem_cons_of_mem _ hx)
    by_cases hb : pyStrip l = []
    · simp only [fmParseLines, if_pos hb, List.foldl_cons]
      exact ih hrest md
    · rcases h1 with h1 | h1
      · exact absurd h1 hb
      · simp only [fmParseLines, if_neg hb, if_pos h1, List.foldl_cons]
        exact ih hrest _

/-- The first non-blank colon-free front line aborts `fmParseLines` with the
invalid-line error naming that line. -/
theorem fmParseLines_err (front : List Line) (bad : Line)
    (h : front.find? (fun x => decide (pyStrip x ≠ [] ∧ ':' ∉ x)) = some bad) :
    ∀ md, fmParseLines front md =
      .error (tl "Invalid front matter line: " ++ bad) := by
  induction front with
  | nil => simp [List.find?] at h
  | cons l rest ih =>
    intro md
    by_cases hp : pyStrip l ≠ [] ∧ ':' ∉ l
    · rw [List.find?_cons_of_pos _ (by simpa using hp)] at h
      obtain rfl : l = bad := by simpa using h
      rw [fmParseLines, if_neg hp.1, if_neg hp.2]
    · rw [List.find?_cons_of_neg _ (by simpa using hp)] at h
      push_neg at hp
      by_cases hb : pyStrip l = []
      · rw [fmParseLines, if_pos hb]
        exact ih h md
      · rw [fmParseLines, if_neg hb, if_pos (hp hb)]
        exact ih h _

/-! ## C8 -/

/-- C8: `parse_front_matter` fails when the first line is missing or is not a
(stripped) `---` delimiter, when no later line closes the section, or when a
non-blank section line has no colon (naming the first such line); otherwise
it returns the mapping obtained by splitting each non-blank section line at
its first colon with key and value stripped, together with the text after
the closing delimiter joined by newlines with leading newlines stripped.
(As a Lean function it is pure by construction, matching the no-side-effects
part of the claim.) -/
theorem C8_parse_front_matter :
    (∀ raw, splitlinesPy raw = [] →
      parse_front_matter raw =
        .error (tl "Markdown file must start with '---' front matter delimiter")) ∧
    (∀ raw l ls, splitlinesPy raw = l :: ls → pyStrip l ≠ tl "---" →
      parse_front_matter raw =
        .error (tl "Markdown file must start with '---' front matter delimiter")) ∧
    (∀ raw l ls, splitlinesPy raw = l :: ls → pyStrip l = tl "---" →
      (∀ x ∈ ls, pyStrip x ≠ tl "---") →
      parse_front_matter raw = .error (tl "Front matter is not closed with '---'")) ∧
    (∀ raw l ls bad, splitlinesPy raw = l :: ls → pyStrip l = tl "---" →
      ls.dropWhile (fun x => decide (pyStrip x ≠ tl "---")) ≠ [] →
      (ls.takeWhile (fun x => decide (pyStrip x ≠ tl "---"))).find?
          (fun x => decide (pyStrip x ≠ [] ∧ ':' ∉ x)) = some bad →
      parse_front_matter raw = .error (tl "Invalid front matter line: " ++ bad)) ∧
    (∀ raw l ls, splitlinesPy raw = l :: ls → pyStrip l = tl "---" →
      ls.dropWhile (fun x => decide (pyStrip x ≠ tl "---")) ≠ [] →
      (∀ x ∈ ls.takeWhile (fun x => decide (pyStrip x ≠ tl "---")),
        pyStrip x = [] ∨ ':' ∈ x) →
      parse_front_matter raw =
        .ok ((ls.takeWhile (fun x => decide (pyStrip x ≠ tl "---"))).foldl
          (fun acc x => if pyStrip x = [] then acc
            else alInsert (pyStrip (x.takeWhile (fun c => c ≠ ':')))
              (pyStrip ((x.dropWhile (fun c => c ≠ ':')).drop 1)) acc) [],
          (joinNl ((ls.dropWhile (fun x => decide (pyStrip x ≠ tl "---"))).tail)).dropWhile
            (fun c => c = '\n'))) := by
  refine ⟨?_, ?_, ?_, ?_, ?_⟩
  · intro raw h
    simp only [parse_front_matter, h]
  · intro raw l ls h hne
    simp only [parse_front_matter, h]
    rw [if_pos hne]
  · intro raw l ls h hd hno
    simp only [parse_front_matter, h]
    rw [if_neg (by simp [hd]), fmSplit_none ls hno]
  · intro raw l ls bad h hd hclose hfind
    simp only [parse_front_matter, h]
    rw [if_neg (by simp [hd]), fmSplit_some ls hclose]
    simp only [fmParseLines_err _ _ hfind]
  · intro raw l ls h hd hclose hcolon
    simp only [parse_front_matter, h]
    rw [if_neg (by simp [hd]), fmSplit_some ls hclose]
    simp only [fmParseLines_ok _ hcolon]

/-- C8 witness: a concrete well-formed document, through the success case of
`C8_parse_front_matter`. -/
theorem C8_parse_front_matter_witness :
    parse_front_matter (tl "---\ntitle: Hi\n\n---\n\nBody text") =
      .ok ([(tl "title", tl "Hi")], tl "Body text") := by
  have h := C8_parse_front_matter.2.2.2.2 (tl "---\ntitle: Hi\n\n---\n\nBody text")
    (tl "---") [tl "title: Hi", tl "", tl "---", tl "", tl "Body text"]
    (by decide) (by decide) (by decide) (by decide)
  rw [h]
  rfl

/-! ## Lemmas for C4 (dash rewriting) -/

/-- Unfolding lemma for `hasDD`. -/
theorem hasDD_cons (c : Char) (rest : List Char) :
    hasDD (c :: rest) = ((c == '-' && headDash rest) || hasDD rest) := rfl

/-- `headDash` looks only at the first element of a nonempty prefix. -/
theorem headDash_append (a b : List Char) (ha : a ≠ []) :
    headDash (a ++ b) = headDash a := by
  cases a with
  | nil => exact absurd rfl ha
  | cons c rest => rfl

/-- Adjacent-hyphen freedom is preserved by appending, provided no hyphen
pair straddles the boundary. -/
theorem hasDD_append (a b : List Char) (ha : hasDD a = false)
    (hb : hasDD b = false) (hx : a.getLast? ≠ some '-' ∨ headDash b = false) :
    hasDD (a ++ b) = false := by
  induction a with
  | nil => simpa using hb
  | cons c rest ih =>
    rw [hasDD_cons] at ha
    simp only [Bool.or_eq_false_iff, Bool.and_eq_false_iff] at ha
    cases rest with
    | nil =>
      simp only [List.cons_append, List.nil_append, hasDD_cons, hb, Bool.or_false]
      rcases hx with hx | hx
      · have : c ≠ '-' := by simpa using hx
        simp [this]
      · simp [hx]
    | cons d rest2 =>
      have hrec : hasDD ((d :: rest2) ++ b) = false := by
        apply ih ha.2
        rcases hx with hx | hx
        · left
          rw [List.getLast?_cons_cons] at hx
          exact hx
        · right; exact hx
      simp only [List.cons_append, hasDD_cons] at hrec ⊢
      simp only [hrec, Bool.or_false]
      rcases ha.1 with h | h
      · simp [h]
      · have hd : d ≠ '-' := by
          simpa [headDash] using h
        simp [headDash, hd]

/-- The output of the `--` replacement never contains two adjacent hyphens,
and it starts with a hyphen only when its input did. -/
theorem replaceDouble_noDD (l : List Char) :
    hasDD (replaceDouble l) = false ∧
      (headDash (replaceDouble l) = true → headDash l = true) := by
  induction l using replaceDouble.induct with
  | case1 rest ih =>
    constructor
    · rw [replaceDouble]
      apply hasDD_append
      · decide
      · exact ih.1
      · left; decide
    · intro h
      rw [replaceDouble] at h
      rw [headDash_append _ _ (by decide)] at h
      exact absurd h (by decide)
  | case2 c rest h1 ih =>
    rw [replaceDouble.eq_2 _ _ h1]
    constructor
    · rw [hasDD_cons]
      simp only [ih.1, Bool.or_false, Bool.and_eq_false_iff]
      by_cases hc : c = '-'
      · right
        subst hc
        have hrd : headDash rest = false := by
          cases rest with
          | nil => rfl
          | cons d rest2 =>
            by_cases hd : d = '-'
            · subst hd; exact absurd rfl (h1 rest2 rfl)
            · simp [headDash, hd]
        cases hre : headDash (replaceDouble rest) with
        | false => rfl
        | true => rw [ih.2 hre] at hrd; exact absurd hrd (by simp)
      · left; simp [hc]
    · intro h
      cases rest with
      | nil => simpa [headDash, replaceDouble] using h
      | cons d r2 => simpa [headDash] using h
  | case3 => simp [replaceDouble, hasDD]

/-- `replaceTriple` is the identity on text without adjacent hyphens. -/
theorem replaceTriple_id (l : List Char) (h : hasDD l = false) :
    replaceTriple l = l := by
  induction l using replaceTriple.induct with
  | case1 rest ih => simp [hasDD_cons, headDash] at h
  | case2 c rest h1 ih =>
    rw [hasDD_cons, Bool.or_eq_false_iff] at h
    rw [replaceTriple.eq_2 _ _ h1, ih h.2]
  | case3 => rfl

/-- `replaceDouble` is the identity on text without adjacent hyphens. -/
theorem replaceDouble_id (l : List Char) (h : hasDD l = false) :
    replaceDouble l = l := by
  induction l using replaceDouble.induct with
  | case1 rest ih => simp [hasDD_cons, headDash] at h
  | case2 c rest h1 ih =>
    rw [hasDD_cons, Bool.or_eq_false_iff] at h
    rw [replaceDouble.eq_2 _ _ h1, ih h.2]
  | case3 => rfl

/-- `replaceDouble` on a cons that does not begin a hyphen pair. -/
theorem replaceDouble_cons_general (c : Char) (X : List Char)
    (h : c ≠ '-' ∨ headDash X = false) :
    replaceDouble (c :: X) = c :: replaceDouble X := by
  apply replaceDouble.eq_2
  intro r hc2 hX
  rcases h with h | h
  · exact h hc2
  · rw [hX] at h
    exact absurd h (by simp [headDash])

/-- `replaceDouble` passes over a hyphen-pair-free prefix that does not end
in a hyphen. -/
theorem replaceDouble_append (a : List Char) (ha : hasDD a = false)
    (hl : a.getLast? ≠ some '-') :
    ∀ X, replaceDouble (a ++ X) = a ++ replaceDouble X := by
  induction a with
  | nil => intro X; rfl
  | cons c rest ih =>
    intro X
    rw [hasDD_cons] at ha
    simp only [Bool.or_eq_false_iff, Bool.and_eq_false_iff] at ha
    cases rest with
    | nil =>
      have hc : c ≠ '-' := by simpa using hl
      simpa using replaceDouble_cons_general c X (Or.inl hc)
    | cons d rest2 =>
      rw [List.getLast?_cons_cons] at hl
      have hrec := ih ha.2 hl X
      have hstep : replaceDouble (c :: (d :: rest2 ++ X)) =
          c :: replaceDouble (d :: rest2 ++ X) := by
        apply replaceDouble_cons_general
        rcases ha.1 with h | h
        · exact Or.inl (by simpa using h)
        · right
          have hd : d ≠ '-' := by simpa [headDash] using h
          simp [headDash, hd]
      exact hstep.trans (by rw [hrec]; simp)

/-- `replaceCharBy` distributes over append. -/
theorem replaceCharBy_append (c : Char) (rep a b : List Char) :
    replaceCharBy c rep (a ++ b) =
      replaceCharBy c rep a ++ replaceCharBy c rep b := by
  induction a with
  | nil => rfl
  | cons x rest ih =>
    by_cases hx : x = c
    · simp [replaceCharBy, hx, ih]
    · simp [replaceCharBy, hx, ih]

/-- `replaceCharBy` is the identity when the pattern character is absent. -/
theorem replaceCharBy_id (c : Char) (rep l : List Char) (h : c ∉ l) :
    replaceCharBy c rep l = l := by
  induction l with
  | nil => rfl
  | cons x rest ih =>
    have hx : x ≠ c := fun he => h (he ▸ List.mem_cons_self x rest)
    simp [replaceCharBy, hx, ih (fun hm => h (List.mem_cons_of_mem _ hm))]

/-- Characters absent from both the input and the replacement are absent
from the output of `replaceCharBy`. -/
theorem replaceCharBy_not_mem (c : Char) (rep l : List Char) (x : Char)
    (hrep : x ∉ rep) (hl : x ∉ l) : x ∉ replaceCharBy c rep l := by
  induction l with
  | nil => simp [replaceCharBy]
  | cons y rest ih =>
    have hy : x ≠ y := fun he => hl (he ▸ List.mem_cons_self y rest)
    have hrest := ih (fun hm => hl (List.mem_cons_of_mem _ hm))
    by_cases hyc : y = c
    · simp only [replaceCharBy, if_pos hyc]
      intro hm
      rcases List.mem_append.mp hm with hm | hm
      · exact hrep hm
      · exact hrest hm
    · simp only [replaceCharBy, if_neg hyc]
      intro hm
      rcases List.mem_cons.mp hm with hm | hm
      · exact hy hm
      · exact hrest hm

/-- The pattern character itself is gone after `replaceCharBy`, provided the
replacement does not contain it. -/
theorem replaceCharBy_removes (c : Char) (rep l : List Char) (hrep : c ∉ rep) :
    c ∉ replaceCharBy c rep l := by
  induction l with
  | nil => simp [replaceCharBy]
  | cons y rest ih =>
    by_cases hyc : y = c
    · simp only [replaceCharBy, if_pos hyc]
      intro hm
      rcases List.mem_append.mp hm with hm | hm
      · exact hrep hm
      · exact ih hm
    · simp only [replaceCharBy, if_neg hyc]
      intro hm
      rcases List.mem_cons.mp hm with hm | hm
      · exact hyc hm.symm
      · exact ih hm

/-- `replaceCharBy` preserves adjacent-hyphen freedom when the pattern is not
a hyphen and the replacement is hyphen-pair free with non-hyphen ends. -/
theorem replaceCharBy_noDD (c : Char) (rep : List Char) (_hc : c ≠ '-')
    (hrep : hasDD rep = false) (hne : rep ≠ [])
    (hh : headDash rep = false) (hlast : rep.getLast? ≠ some '-') :
    ∀ l, hasDD l = false →
      hasDD (replaceCharBy c rep l) = false ∧
        (headDash (replaceCharBy c rep l) = true → headDash l = true) := by
  intro l
  induction l with
  | nil => intro _; simp [replaceCharBy, hasDD, headDash]
  | cons x rest ih =>
    intro h
    rw [hasDD_cons] at h
    simp only [Bool.or_eq_false_iff, Bool.and_eq_false_iff] at h
    have hrest := ih h.2
    by_cases hx : x = c
    · simp only [replaceCharBy, if_pos hx]
      constructor
      · exact hasDD_append _ _ hrep hrest.1 (Or.inl hlast)
      · intro hhead
        rw [headDash_append _ _ hne, hh] at hhead
        exact absurd hhead (by simp)
    · simp only [replaceCharBy, if_neg hx]
      constructor
      · rw [hasDD_cons]
        simp only [hrest.1, Bool.or_false, Bool.and_eq_false_iff]
        by_cases hxd : x = '-'
        · right
          subst hxd
          rcases h.1 with hcon | hcon
          · exact absurd hcon (by simp)
          · cases hre : headDash (replaceCharBy c rep rest) with
            | false => rfl
            | true => rw [hrest.2 hre] at hcon; exact absurd hcon (by simp)
        · left; simp [hxd]
      · intro hhead
        simpa [headDash] using hhead

/-- The output of the full dash rewrite has no adjacent hyphens and no
Unicode dashes. -/
theorem dashRewrite_clean (s : Line) :
    hasDD (dashRewrite s) = false ∧ emDashChar ∉ dashRewrite s ∧
      enDashChar ∉ dashRewrite s := by
  have h1 : hasDD (replaceDouble (replaceTriple s)) = false :=
    (replaceDouble_noDD (replaceTriple s)).1
  have h2 := replaceCharBy_noDD emDashChar EM_DASH_HTML (by decide) (by decide)
    (by decide) (by decide) (by decide) (replaceDouble (replaceTriple s)) h1
  have h3 := replaceCharBy_noDD enDashChar EN_DASH_HTML (by decide) (by decide)
    (by decide) (by decide) (by decide) _ h2.1
  refine ⟨h3.1, ?_, ?_⟩
  · apply replaceCharBy_not_mem
    · decide
    · exact replaceCharBy_removes emDashChar EM_DASH_HTML _ (by decide)
  · exact replaceCharBy_removes enDashChar EN_DASH_HTML _ (by decide)

/-- C4: (1) a literal `---` at the head of the text is rewritten by the
triple-hyphen substitution to the em-dash element, never as two separate
`--` substitutions (the remaining text is rewritten independently);
(2) the dash substitutions are idempotent: applied to their own output they
change nothing; (3) in particular `A--B---C` renders with an en-dash entity
between A and B and the em-dash styled span between B and C; (4,5) the body
`# Hello\n\nA--B---C` parses to exactly one title `Hello` and one paragraph
block `A--B---C`, whose inline rendering is that same dash markup. -/
theorem C4_dash_rewriting :
    (∀ l, dashRewrite ('-' :: '-' :: '-' :: l) = EM_DASH_HTML ++ dashRewrite l) ∧
    (∀ s, dashRewrite (dashRewrite s) = dashRewrite s) ∧
    render_text_segment (tl "A--B---C") =
      tl "A&ndash;B<span class=\"emdash-box\">&mdash;</span>C" ∧
    parse_markdown_body (tl "# Hello\n\nA--B---C") =
      .ok ([Block.withText (tl "paragraph") (tl "A--B---C")], some (tl "Hello"),
        [], [], []) ∧
    render_inline 32 (collapse_text (tl "A--B---C")) true none [] =
      .ok (tl "A&ndash;B<span class=\"emdash-box\">&mdash;</span>C", none) := by
  refine ⟨?_, ?_, ?_, ?_, ?_⟩
  · intro l
    have h1 : replaceTriple ('-' :: '-' :: '-' :: l) =
        EM_DASH_HTML ++ replaceTriple l := rfl
    rw [dashRewrite, h1,
      replaceDouble_append EM_DASH_HTML (by decide) (by decide),
      replaceCharBy_append, replaceCharBy_append,
      replaceCharBy_id emDashChar EM_DASH_HTML EM_DASH_HTML (by decide),
      replaceCharBy_id enDashChar EN_DASH_HTML EM_DASH_HTML (by decide)]
    rfl
  · intro s
    obtain ⟨hdd, hem, hen⟩ := dashRewrite_clean s
    rw [dashRewrite, replaceTriple_id _ hdd, replaceDouble_id _ hdd,
      replaceCharBy_id _ _ _ hem, replaceCharBy_id _ _ _ hen]
  · rfl
  · rfl
  · rfl

/-! ## C1: title resolution -/

/-- C1: (1) a non-empty metadata `title` value strictly overrides the
extracted heading — the resolved title is its stripped value regardless of
the heading; (2) when the metadata has no title (absent key or empty value)
the extracted heading is used; (3) when neither source yields a non-empty
(stripped) title, `build_article` fails with the missing-title error, for
any blocks and collaborators. -/
theorem C1_title_resolution :
    (∀ metadata extracted s, alGet (tl "title") metadata = some s → s ≠ [] →
      resolve_title metadata extracted = pyStrip s) ∧
    (∀ metadata extracted e,
      (alGet (tl "title") metadata = none ∨ alGet (tl "title") metadata = some []) →
      extracted = some e → resolve_title metadata extracted = pyStrip e) ∧
    (∀ fuel formatCode renderMathBlocks metadata blocks extracted
        right_rail sidenote_defs link_defs,
      pyStrip ((alGet (tl "title") metadata).getD []) = [] →
      pyStrip (extracted.getD []) = [] →
      build_article fuel formatCode renderMathBlocks metadata blocks extracted
          right_rail sidenote_defs link_defs =
        .error (tl "Missing title. Provide a 'title' in front matter or start the markdown with '# Title'.")) := by
  refine ⟨?_, ?_, ?_⟩
  · intro metadata extracted s hs hne
    rw [resolve_title, hs]
    simp [pyOrOpt, hne]
  · intro metadata extracted e hmd he
    subst he
    rcases hmd with hmd | hmd <;> rw [resolve_title, hmd]
    · by_cases hee : e = []
      · subst hee; rfl
      · simp [pyOrOpt, hee]
    · by_cases hee : e = []
      · subst hee; rfl
      · simp [pyOrOpt, hee]
  · intro fuel formatCode renderMathBlocks metadata blocks extracted
      right_rail sidenote_defs link_defs h1 h2
    have htitle : resolve_title metadata extracted = [] := by
      rw [resolve_title]
      cases hmd : alGet (tl "title") metadata with
      | none =>
        cases hex : extracted with
        | none => rfl
        | some e =>
          rw [hex] at h2
          simp only [Option.getD_some] at h2
          by_cases hee : e = []
          · subst hee; rfl
          · simpa [pyOrOpt, hee] using h2
      | some s =>
        rw [hmd] at h1
        simp only [Option.getD_some] at h1
        by_cases hse : s = []
        · subst hse
          cases hex : extracted with
          | none => rfl
          | some e =>
            rw [hex] at h2
            simp only [Option.getD_some] at h2
            by_cases hee : e = []
            · subst hee; rfl
            · simpa [pyOrOpt, hee] using h2
        · simpa [pyOrOpt, hse] using h1
    rw [build_article, htitle]
    rfl

/-- C1 witness: metadata title wins over the heading, and a document with
neither source fails. -/
theorem C1_title_resolution_witness :
    resolve_title [(tl "title", tl " T ")] (some (tl "H")) = tl "T" ∧
    build_article 8 (fun code _ => code) (fun exprs => ([], exprs))
        [(tl "title", tl "  ")] [] (some (tl "  ")) [] [] [] =
      .error (tl "Missing title. Provide a 'title' in front matter or start the markdown with '# Title'.") := by
  constructor
  · have h := C1_title_resolution.1 [(tl "title", tl " T ")] (some (tl "H"))
      (tl " T ") (by decide) (by decide)
    rw [h]
    decide
  · exact C1_title_resolution.2.2 8 (fun code _ => code) (fun exprs => ([], exprs))
      [(tl "title", tl "  ")] [] (some (tl "  ")) [] [] []
      (by decide) (by decide)

/-! ## C6: subtitle variants (corrected) -/

/-- Membership in a stable insertion. -/
theorem mem_insertByIdx (p q : Nat × Line) (l : List (Nat × Line))
    (h : q ∈ insertByIdx p l) : q = p ∨ q ∈ l := by
  induction l with
  | nil => simpa [insertByIdx] using h
  | cons r rest ih =>
    by_cases hr : r.1 ≤ p.1
    · rw [insertByIdx, if_pos hr] at h
      rcases List.mem_cons.mp h with rfl | h
      · exact Or.inr (List.mem_cons_self _ _)
      · rcases ih h with h | h
        · exact Or.inl h
        · exact Or.inr (List.mem_cons_of_mem _ h)
    · rw [insertByIdx, if_neg hr] at h
      rcases List.mem_cons.mp h with rfl | h
      · exact Or.inl rfl
      · exact Or.inr h

/-- Stable insertion preserves sortedness by index. -/
theorem pairwise_insertByIdx (p : Nat × Line) (l : List (Nat × Line))
    (h : List.Pairwise (fun a b => a.1 ≤ b.1) l) :
    List.Pairwise (fun a b => a.1 ≤ b.1) (insertByIdx p l) := by
  induction l with
  | nil => simp [insertByIdx]
  | cons q rest ih =>
    rcases List.pairwise_cons.mp h with ⟨hq, hrest⟩
    by_cases hr : q.1 ≤ p.1
    · rw [insertByIdx, if_pos hr]
      refine List.pairwise_cons.mpr ⟨?_, ih hrest⟩
      intro x hx
      rcases mem_insertByIdx p x rest hx with rfl | hx
      · exact hr
      · exact hq x hx
    · rw [insertByIdx, if_neg hr]
      refine List.pairwise_cons.mpr ⟨?_, h⟩
      intro x hx
      rcases List.mem_cons.mp hx with rfl | hx
      · omega
      · exact le_trans (by omega) (hq x hx)

/-- The insertion sort used for explicit subtitle keys is sorted by index. -/
theorem pairwise_sortByIdx (l : List (Nat × Line)) :
    List.Pairwise (fun a b => a.1 ≤ b.1) (sortByIdx l) := by
  have aux : ∀ (xs : List (Nat × Line)) (acc : List (Nat × Line)),
      List.Pairwise (fun a b => a.1 ≤ b.1) acc →
      List.Pairwise (fun a b => a.1 ≤ b.1)
        (xs.foldl (fun acc p => insertByIdx p acc) acc) := by
    intro xs
    induction xs with
    | nil => intro acc h; exact h
    | cons x rest ih =>
      intro acc h
      exact ih _ (pairwise_insertByIdx x acc h)
  exact aux l [] (by simp)

/-- The fallback fold collects exactly the truthy, non-blank values of its
keys, in key order. -/
theorem subtitleFallback_filterMap (md : List (Line × Line)) :
    subtitleFallback md =
      [tl "subtitle_long", tl "subtitle_short", tl "subtitle"].filterMap
        (fun k => match alGet k md with
          | some v => if v ≠ [] ∧ pyStrip v ≠ [] then some (pyStrip v) else none
          | none => none) := by
  have aux : ∀ (keys : List Line) (acc : List Line),
      keys.foldl (fun acc key =>
        match alGet key md with
        | some v =>
          if v ≠ [] then
            let text := pyStrip v
            if text ≠ [] then acc ++ [text] else acc
          else acc
        | none => acc) acc =
      acc ++ keys.filterMap (fun k => match alGet k md with
        | some v => if v ≠ [] ∧ pyStrip v ≠ [] then some (pyStrip v) else none
        | none => none) := by
    intro keys
    induction keys with
    | nil => intro acc; simp
    | cons k ks ih =>
      intro acc
      rw [List.foldl_cons, List.filterMap_cons]
      cases hk : alGet k md with
      | none => simpa using ih acc
      | some v =>
        by_cases hv : v = []
        · subst hv
          simpa using ih acc
        · by_cases ht : pyStrip v = []
          · simpa [hv, ht] using ih acc
          · simpa [hv, ht] using ih (acc ++ [pyStrip v])
  exact aux _ []

/-- C6 counterexample: with both `subtitle_long` and `subtitle` present (and
no explicit `subtitle_<N>` keys), `collect_subtitle_variants` returns the
values of **all** present fallback keys, not just the value of the first
present key as the claim states. -/
theorem C6_subtitles_counterexample :
    collect_subtitle_variants
        [(tl "subtitle_long", tl "L"), (tl "subtitle", tl "S")] =
      [tl "L", tl "S"] ∧
    ([tl "L", tl "S"] : List Line) ≠ [tl "L"] := by
  constructor
  · rfl
  · decide

/-- C6 (amended): `collect_subtitle_variants` returns the explicit
`subtitle_<N>` values sorted (stably) by numeric index when any exist; else
the values of **all** present keys of the fixed fallback order
`subtitle_long`, `subtitle_short`, `subtitle` (in that order); else the date
field as a single variant when non-empty, and the empty list otherwise; and
`build_article`'s variant list falls back to the title itself, so the
article always carries at least one subtitle variant. -/
theorem C6_subtitles_amended :
    (∀ md, subtitleExplicit md ≠ [] →
      collect_subtitle_variants md =
        (sortByIdx (subtitleExplicit md)).map (fun p => p.2) ∧
      List.Pairwise (fun a b => a.1 ≤ b.1) (sortByIdx (subtitleExplicit md))) ∧
    (∀ md, subtitleExplicit md = [] → subtitleFallback md ≠ [] →
      collect_subtitle_variants md = subtitleFallback md ∧
      subtitleFallback md =
        [tl "subtitle_long", tl "subtitle_short", tl "subtitle"].filterMap
          (fun k => match alGet k md with
            | some v => if v ≠ [] ∧ pyStrip v ≠ [] then some (pyStrip v) else none
            | none => none)) ∧
    (∀ md, subtitleExplicit md = [] → subtitleFallback md = [] →
      collect_subtitle_variants md =
        (if pyStrip ((alGet (tl "date") md).getD []) ≠ []
          then [pyStrip ((alGet (tl "date") md).getD [])] else [])) ∧
    (∀ md title, article_subtitle_variants md title ≠ [] ∧
      (collect_subtitle_variants md = [] →
        article_subtitle_variants md title = [title])) := by
  refine ⟨?_, ?_, ?_, ?_⟩
  · intro md h
    exact ⟨by rw [collect_subtitle_variants, if_pos h],
      pairwise_sortByIdx (subtitleExplicit md)⟩
  · intro md he hf
    refine ⟨?_, subtitleFallback_filterMap md⟩
    rw [collect_subtitle_variants, if_neg (by simp [he]), if_pos hf]
  · intro md he hf
    rw [collect_subtitle_variants, if_neg (by simp [he]), if_neg (by simp [hf])]
  · intro md title
    constructor
    · rw [article_subtitle_variants]
      by_cases h : collect_subtitle_variants md = []
      · simp [h]
      · simp [h]
    · intro h
      rw [article_subtitle_variants, if_pos h]

/-- C6 witness: explicit numbered subtitles sorted by index; fallback case;
date case; and the title fallback. -/
theorem C6_subtitles_witness :
    collect_subtitle_variants [(tl "subtitle_2", tl "b"), (tl "subtitle_1", tl "a")] =
      [tl "a", tl "b"] ∧
    collect_subtitle_variants [(tl "date", tl " 2024 ")] = [tl "2024"] ∧
    article_subtitle_variants [] (tl "T") = [tl "T"] := by
  refine ⟨?_, ?_, ?_⟩
  · have h := (C6_subtitles_amended.1
      [(tl "subtitle_2", tl "b"), (tl "subtitle_1", tl "a")] (by decide)).1
    rw [h]
    decide
  · have h := C6_subtitles_amended.2.2.1 [(tl "date", tl " 2024 ")]
      (by decide) (by decide)
    rw [h]
    decide
  · exact (C6_subtitles_amended.2.2.2 [] (tl "T")).2 (by decide)

/-! ## C3: table row normalization (corrected) -/

/-- `normalize_cells` always produces exactly `width` cells. -/
theorem normalize_cells_length (cells : List Line) (width : Nat) :
    (normalize_cells cells width).length = width := by
  rw [normalize_cells]
  by_cases h1 : cells.length < width
  · rw [if_pos h1]
    simp
    omega
  · rw [if_neg h1]
    by_cases h2 : cells.length > width
    · rw [if_pos h2]
      simp
      omega
    · rw [if_neg h2]
      omega

/-- Every successful `parse_table_block` produces a table block whose rows
are the collected rows normalized to the header width. -/
theorem parse_table_block_shape (lines : List Line) (start : Nat)
    (b : Block) (idx : Nat) (ls : List Line)
    (h : parse_table_block lines start = .ok (b, idx, ls)) :
    b.headers = split_table_cells (lineAt lines start) ∧
    b.rows = (ptbRows (lines.length + 1) lines (start + 2)).1.map
      (fun row => normalize_cells row
        (split_table_cells (lineAt lines start)).length) := by
  rw [parse_table_block] at h
  split at h
  · exact absurd h (by simp)
  · dsimp only at h
    split at h
    · split at h
      · rcases h with ⟨rfl, rfl, rfl⟩
        exact ⟨rfl, rfl⟩
      · rcases h with ⟨rfl, rfl, rfl⟩
        exact ⟨rfl, rfl⟩
    · rcases h with ⟨rfl, rfl, rfl⟩
      exact ⟨rfl, rfl⟩

/-- C3 counterexample: for the header `A|B`, divider `---|---` and the
single-cell data line `1` (no pipe), the parsed table has **no** data rows —
the line `1` is not consumed as a table row, contradicting the claimed
normalized row `["1", ""]`. -/
theorem C3_tables_counterexample :
    parse_table_block [tl "A|B", tl "---|---", tl "1"] 0 =
      .ok (Block.tableB [tl "A", tl "B"] [] [], 2,
        [tl "A|B", tl "---|---", tl "1"]) ∧
    (Block.tableB [tl "A", tl "B"] [] []).rows = [] ∧
    ([] : List (List Line)) ≠ [[tl "1", tl ""]] := by
  refine ⟨rfl, rfl, by decide⟩

/-- C3 (amended): every row of a parsed table block has exactly as many
cells as the header row (short rows padded with empty cells on the right,
long rows truncated by `normalize_cells`); however a data-row line must
contain a pipe to be consumed: a line without one (such as the single-cell
line `1`) terminates row collection and contributes no row, while the
single-cell data row written `1|` yields the normalized row `["1", ""]`. -/
theorem C3_tables_amended :
    (∀ lines start b idx ls, parse_table_block lines start = .ok (b, idx, ls) →
      ∀ r ∈ b.rows, r.length = b.headers.length) ∧
    (∀ lines start b idx ls, parse_table_block lines start = .ok (b, idx, ls) →
      (pyStrip (lineAt lines (start + 2)) = [] ∨
        (lineAt lines (start + 2)).contains '|' = false) →
      b.rows = []) ∧
    parse_table_block [tl "A|B", tl "---|---", tl "1|"] 0 =
      .ok (Block.tableB [tl "A", tl "B"] [[tl "1", tl ""]] [], 3,
        [tl "A|B", tl "---|---", tl "1|"]) := by
  refine ⟨?_, ?_, rfl⟩
  · intro lines start b idx ls h r hr
    obtain ⟨hh, hrows⟩ := parse_table_block_shape lines start b idx ls h
    rw [hrows] at hr
    rcases List.mem_map.mp hr with ⟨row, _, rfl⟩
    rw [hh]
    exact normalize_cells_length _ _
  · intro lines start b idx ls h hstop
    obtain ⟨_, hrows⟩ := parse_table_block_shape lines start b idx ls h
    have hrows0 : (ptbRows (lines.length + 1) lines (start + 2)).1 = [] := by
      rw [ptbRows]
      by_cases hlt : start + 2 < lines.length
      · rw [if_pos hlt]
        rcases hstop with hstop | hstop
        · rw [if_pos hstop]
        · by_cases hsb : pyStrip (lineAt lines (start + 2)) = []
          · rw [if_pos hsb]
          · rw [if_neg hsb, if_pos (by rw [hstop]; rfl)]
      · rw [if_neg hlt]
    rw [hrows, hrows0, List.map_nil]

/-- C3 witness: the width property applied to the concrete `1|` table. -/
theorem C3_tables_witness :
    (tl "1" :: tl "" :: []).length =
      (Block.tableB [tl "A", tl "B"] [[tl "1", tl ""]] []).headers.length :=
  C3_tables_amended.1 [tl "A|B", tl "---|---", tl "1|"] 0
    (Block.tableB [tl "A", tl "B"] [[tl "1", tl ""]] []) 3
    [tl "A|B", tl "---|---", tl "1|"] rfl (tl "1" :: tl "" :: []) (by decide)

/-! ## Lemmas for C5 (list nesting) -/

/-- Inversion for `ulMatch`. -/
theorem ulMatch_shape (line : Line) (w t : Line)
    (h : ulMatch line = some (w, t)) :
    w = line.takeWhile isPySpace ∧
      line.dropWhile isPySpace = '-' :: ' ' :: t := by
  rw [ulMatch] at h
  split at h
  · rename_i x tail heq
    rw [Option.some.injEq, Prod.mk.injEq] at h
    exact ⟨h.1.symm, by rw [heq, h.2]⟩
  · exact absurd h (by simp)

/-- A matched unordered item line does not strip to empty. -/
theorem ulMatch_strip_ne (line : Line) (w t : Line)
    (h : ulMatch line = some (w, t)) : pyStrip line ≠ [] := by
  obtain ⟨_, hdrop⟩ := ulMatch_shape line w t h
  apply pyStrip_ne_nil_of_mem line '-'
  · have : '-' ∈ line.dropWhile isPySpace := by rw [hdrop]; simp
    have hsplit := List.takeWhile_append_dropWhile (p := isPySpace) (l := line)
    rw [← hsplit]
    exact List.mem_append_right _ this
  · decide

/-- Inversion for `olMatch`. -/
theorem olMatch_shape (line : Line) (w d t : Line)
    (h : olMatch line = some (w, d, t)) :
    w = line.takeWhile isPySpace ∧
      d = (line.dropWhile isPySpace).takeWhile Char.isDigit ∧ d ≠ [] ∧
      (line.dropWhile isPySpace).dropWhile Char.isDigit = '.' :: ' ' :: t := by
  rw [olMatch] at h
  split at h
  · exact absurd h (by simp)
  · rename_i hds
    split at h
    · rename_i x tail heq
      rw [Option.some.injEq, Prod.mk.injEq, Prod.mk.injEq] at h
      refine ⟨h.1.symm, h.2.1.symm, ?_, ?_⟩
      · rw [← h.2.1]
        simpa using hds
      · rw [heq, h.2.2]
    · exact absurd h (by simp)

/-- A matched ordered item line does not strip to empty. -/
theorem olMatch_strip_ne (line : Line) (w d t : Line)
    (h : olMatch line = some (w, d, t)) : pyStrip line ≠ [] := by
  obtain ⟨_, _, _, hdrop⟩ := olMatch_shape line w d t h
  apply pyStrip_ne_nil_of_mem line '.'
  · have h1 : '.' ∈ (line.dropWhile isPySpace).dropWhile Char.isDigit := by
      rw [hdrop]; simp
    have h2 : '.' ∈ line.dropWhile isPySpace := by
      have := List.takeWhile_append_dropWhile (p := Char.isDigit)
        (l := line.dropWhile isPySpace)
      rw [← this]
      exact List.mem_append_right _ h1
    have := List.takeWhile_append_dropWhile (p := isPySpace) (l := line)
    rw [← this]
    exact List.mem_append_right _ h2
  · decide

/-- An ordered item line never matches the unordered pattern. -/
theorem olMatch_ulMatch_none (line : Line) (w d t : Line)
    (h : olMatch line = some (w, d, t)) : ulMatch line = none := by
  obtain ⟨_, hd, hdne, _⟩ := olMatch_shape line w d t h
  rw [ulMatch]
  split
  · rename_i heq
    rw [heq] at hd
    rw [List.takeWhile_cons] at hd
    have : ¬ Char.isDigit '-' = true := by decide
    rw [if_neg this] at hd
    exact absurd hd hdne
  · rfl

/-- A line that is neither kind of list item and is more deeply indented
than the base terminates `plAux` immediately. -/
theorem plAux_stop (fuel : Nat) (lines : List Line) (j : Nat) (kind : Line)
    (base : Nat) (hgt : get_list_indent (lineAt lines j) > base)
    (hu : ulMatch (lineAt lines j) = none)
    (ho : olMatch (lineAt lines j) = none) :
    plAux fuel lines j kind base = ([], j) := by
  cases fuel with
  | zero => rfl
  | succ fuel =>
    rw [plAux]
    by_cases hj : j < lines.length
    · rw [if_pos hj]
      by_cases hs : pyStrip (lineAt lines j) = []
      · rw [if_pos hs]
      · rw [if_neg hs, if_neg (by omega), hu, ho]
    · rw [if_neg hj]

/-- `plAux` out of bounds returns the empty level. -/
theorem plAux_oob (fuel : Nat) (lines : List Line) (j : Nat) (kind : Line)
    (base : Nat) (h : ¬ j < lines.length) :
    plAux fuel lines j kind base = ([], j) := by
  cases fuel with
  | zero => rfl
  | succ fuel => rw [plAux, if_neg h]

/-- One consuming step of `parse_list_items`: when the line at the cursor is
an item of the current list kind at exactly the base indentation, the item
is consumed and the rest of the loop (including the nested-list lookahead on
the following line) is exposed. -/
theorem parse_list_items_consume (lines : List Line) (i base : Nat)
    (t list_kind : Line) (hi : i < lines.length)
    (hitem : (list_kind = tl "ul" ∧
        ∃ w, ulMatch (lineAt lines i) = some (w, t)) ∨
      (list_kind = tl "ol" ∧
        ∃ w d, olMatch (lineAt lines i) = some (w, d, t)))
    (hind : get_list_indent (lineAt lines i) = base) :
    parse_list_items lines i list_kind base =
      (if i + 1 < lines.length then
        if get_list_indent (lineAt lines (i + 1)) > base ∧
            ((ulMatch (lineAt lines (i + 1))).isSome ∨
              (olMatch (lineAt lines (i + 1))).isSome) then
          ((t, some (Block.listB
              (if (ulMatch (lineAt lines (i + 1))).isSome then tl "ul" else tl "ol")
              (plAux lines.length lines (i + 1)
                (if (ulMatch (lineAt lines (i + 1))).isSome then tl "ul" else tl "ol")
                (get_list_indent (lineAt lines (i + 1)))).1)) ::
            (plAux lines.length lines
              (plAux lines.length lines (i + 1)
                (if (ulMatch (lineAt lines (i + 1))).isSome then tl "ul" else tl "ol")
                (get_list_indent (lineAt lines (i + 1)))).2 list_kind base).1,
            (plAux lines.length lines
              (plAux lines.length lines (i + 1)
                (if (ulMatch (lineAt lines (i + 1))).isSome then tl "ul" else tl "ol")
                (get_list_indent (lineAt lines (i + 1)))).2 list_kind base).2)
        else
          ((t, none) :: (plAux lines.length lines (i + 1) list_kind base).1,
            (plAux lines.length lines (i + 1) list_kind base).2)
      else
        ((t, none) :: (plAux lines.length lines (i + 1) list_kind base).1,
          (plAux lines.length lines (i + 1) list_kind base).2)) := by
  rcases hitem with ⟨hkind, w, hum⟩ | ⟨hkind, w, d, hol⟩
  · have hstrip := ulMatch_strip_ne _ _ _ hum
    subst hkind
    simp only [parse_list_items, plAux]
    rw [if_pos hi, if_neg hstrip, hind, if_neg (lt_irrefl base), hum]
    simp
  · have hstrip := olMatch_strip_ne _ _ _ _ hol
    have hun := olMatch_ulMatch_none _ _ _ _ hol
    subst hkind
    simp only [parse_list_items, plAux]
    rw [if_pos hi, if_neg hstrip, hind, if_neg (lt_irrefl base), hun, hol]
    simp

/-! ## C5 -/

/-- C5: given an item line of the current list at exactly the base
indentation, (1) the item acquires a nested **unordered** sublist when the
following line is more deeply indented and matches the unordered marker;
(2) it acquires a nested **ordered** sublist when that line is more deeply
indented and matches only the ordered marker — in both cases the nested kind
comes solely from the nested line's own marker, independent of the parent
kind; (3) the item acquires no sublist whenever the following line fails the
deeper-indent-and-marker test; (4) if that line is more deeply indented but
is no list marker, parsing of the list terminates at that line; (5) an item
at the end of the buffer closes the list; and (6) the body
`- a\n  - b\n- c` parses to one unordered list with items `a` (owning a
one-item nested unordered list `b`) and `c`. -/
theorem C5_list_nesting :
    (∀ lines i base t list_kind, i < lines.length →
      ((list_kind = tl "ul" ∧ ∃ w, ulMatch (lineAt lines i) = some (w, t)) ∨
        (list_kind = tl "ol" ∧ ∃ w d, olMatch (lineAt lines i) = some (w, d, t))) →
      get_list_indent (lineAt lines i) = base →
      ((i + 1 < lines.length → get_list_indent (lineAt lines (i + 1)) > base →
        (ulMatch (lineAt lines (i + 1))).isSome →
        ∃ ni rest nk, parse_list_items lines i list_kind base =
          ((t, some (Block.listB (tl "ul") ni)) :: rest, nk)) ∧
      (i + 1 < lines.length → get_list_indent (lineAt lines (i + 1)) > base →
        ulMatch (lineAt lines (i + 1)) = none →
        (olMatch (lineAt lines (i + 1))).isSome →
        ∃ ni rest nk, parse_list_items lines i list_kind base =
          ((t, some (Block.listB (tl "ol") ni)) :: rest, nk)) ∧
      (i + 1 < lines.length →
        ¬ (get_list_indent (lineAt lines (i + 1)) > base ∧
          ((ulMatch (lineAt lines (i + 1))).isSome ∨
            (olMatch (lineAt lines (i + 1))).isSome)) →
        ∃ rest nk, parse_list_items lines i list_kind base =
          ((t, none) :: rest, nk)) ∧
      (i + 1 < lines.length → get_list_indent (lineAt lines (i + 1)) > base →
        ulMatch (lineAt lines (i + 1)) = none →
        olMatch (lineAt lines (i + 1)) = none →
        parse_list_items lines i list_kind base = ([(t, none)], i + 1)) ∧
      (¬ (i + 1 < lines.length) →
        parse_list_items lines i list_kind base = ([(t, none)], i + 1)))) ∧
    parse_markdown_body (tl "- a\n  - b\n- c") =
      .ok ([Block.listB (tl "ul")
          [(tl "a", some (Block.listB (tl "ul") [(tl "b", none)])),
            (tl "c", none)]],
        none, [], [], []) := by
  constructor
  · intro lines i base t list_kind hi hitem hind
    have hstep := parse_list_items_consume lines i base t list_kind hi hitem hind
    refine ⟨?_, ?_, ?_, ?_, ?_⟩
    · intro h1 hgt hun
      rw [hstep, if_pos h1, if_pos ⟨hgt, Or.inl hun⟩, if_pos hun]
      exact ⟨_, _, _, rfl⟩
    · intro h1 hgt hun hon
      rw [hstep, if_pos h1, if_pos ⟨hgt, Or.inr hon⟩,
        if_neg (by simp [hun])]
      exact ⟨_, _, _, rfl⟩
    · intro h1 hcond
      rw [hstep, if_pos h1, if_neg hcond]
      exact ⟨_, _, rfl⟩
    · intro h1 hgt hu ho
      rw [hstep, if_pos h1, if_neg (by simp [hu, ho]),
        plAux_stop lines.length lines (i + 1) list_kind base hgt hu ho]
    · intro h1
      rw [hstep, if_neg h1, plAux_oob lines.length lines (i + 1) list_kind base
        (by omega)]
  · rfl

/-- C5 witness: the nesting step applied to the concrete scenario lines. -/
theorem C5_list_nesting_witness :
    ∃ ni rest nk,
      parse_list_items [tl "- a", tl "  - b", tl "- c"] 0 (tl "ul") 0 =
        ((tl "a", some (Block.listB (tl "ul") ni)) :: rest, nk) :=
  ((C5_list_nesting.1 [tl "- a", tl "  - b", tl "- c"] 0 0 (tl "a") (tl "ul")
    (by decide) (Or.inl ⟨rfl, [], by decide⟩) (by decide)).1)
    (by decide) (by decide) (by decide)

/-! ## Lemmas for C2/C9 (sidenote registry) -/

/-- Appending a fresh key makes it findable. -/
theorem alGet_append_last {α : Type} (k : Line) (v : α) (l : List (Line × α))
    (h : alGet k l = none) : alGet k (l ++ [(k, v)]) = some v := by
  induction l with
  | nil => simp [alGet]
  | cons p rest ih =>
    obtain ⟨k', v'⟩ := p
    by_cases hk : k' = k
    · rw [alGet, if_pos hk] at h
      exact absurd h (by simp)
    · rw [alGet, if_neg hk] at h
      rw [List.cons_append, alGet, if_neg hk]
      exact ih h

/-- Complete case analysis of a successful `render_reference` call: either
the label is already memoized (same markup, untouched state), or a fresh
entry with the next counter value is appended. -/
theorem render_reference_ok_cases (fuel : Nat) (st : SidenoteRegistry)
    (label out : Line) (st' : SidenoteRegistry)
    (h : SidenoteRegistry.render_reference (fuel + 1) st label = .ok (out, st')) :
    (∃ e, alGet (pyStrip label) st.entries = some e ∧
      out = inlineMarkup e ∧ st' = st) ∨
    (∃ e, alGet (pyStrip label) st.entries = none ∧
      st'.entries = st.entries ++ [(pyStrip label, e)] ∧
      e.number = st.counter + 1 ∧ e.id = tl "sn" ++ natDigits st.counter ∧
      st'.counter = st.counter + 1 ∧ out = inlineMarkup e ∧
      st'.definitions = st.definitions) := by
  rw [SidenoteRegistry.render_reference] at h
  by_cases hk : pyStrip label = []
  · rw [if_pos hk] at h
    exact absurd h (by simp)
  · rw [if_neg hk] at h
    split at h
    · exact absurd h (by simp)
    · split at h
      · rename_i entry hentry
        left
        rw [Except.ok.injEq, Prod.mk.injEq] at h
        exact ⟨entry, hentry, h.1.symm, h.2.symm⟩
      · rename_i hnone
        dsimp only at h
        split at h
        · exact absurd h (by simp)
        · rename_i content_html snd hrend
          right
          rw [Except.ok.injEq, Prod.mk.injEq] at h
          refine ⟨⟨tl "sn" ++ natDigits (st.counter + 1 - 1), st.counter + 1,
              content_html⟩,
            hnone, ?_, rfl, by simp, ?_, h.1.symm, ?_⟩
          · rw [← h.2]
            exact alInsert_of_not_mem _ _ _ hnone
          · rw [← h.2]
          · rw [← h.2]

/-- The rail loop is a map over the memoized entries, in order. -/
theorem railLoop_eq_map (l : List (Line × Entry)) :
    ∀ acc, railLoop l acc = acc ++ l.map (fun p => railSpanOf p.2) := by
  induction l with
  | nil => intro acc; simp [railLoop]
  | cons p rest ih =>
    intro acc
    rw [railLoop, ih]
    simp

/-! ## C2 -/

/-- C2: (1) a fresh registry has no entries and counter 0; (2) a reference
to an already-memoized label returns the stored entry's markup and leaves
the registry untouched — the definition body is not re-rendered; (3) a first
reference to a label appends a new entry numbered `counter + 1` at the end;
(4) consequently display numbers are exactly `1, 2, 3, ...` in
first-reference order, preserved by every successful call; (5)
`render_rail_spans` emits exactly one rail span per memoized entry, in
first-reference order. -/
theorem C2_sidenote_numbering :
    (∀ defs, (SidenoteRegistry.init defs).entries = [] ∧
      (SidenoteRegistry.init defs).counter = 0) ∧
    (∀ fuel st label e d, pyStrip label ≠ [] →
      alGet (pyStrip label) st.definitions = some d →
      alGet (pyStrip label) st.entries = some e →
      SidenoteRegistry.render_reference (fuel + 1) st label =
        .ok (inlineMarkup e, st)) ∧
    (∀ fuel st label out st',
      alGet (pyStrip label) st.entries = none →
      SidenoteRegistry.render_reference (fuel + 1) st label = .ok (out, st') →
      ∃ e, st'.entries = st.entries ++ [(pyStrip label, e)] ∧
        e.number = st.counter + 1 ∧ st'.counter = st.counter + 1 ∧
        out = inlineMarkup e) ∧
    (∀ fuel st label out st',
      st.entries.map (fun p => p.2.number) = List.range' 1 st.entries.length →
      st.counter = st.entries.length →
      SidenoteRegistry.render_reference (fuel + 1) st label = .ok (out, st') →
      st'.entries.map (fun p => p.2.number) = List.range' 1 st'.entries.length ∧
        st'.counter = st'.entries.length) ∧
    (∀ st, SidenoteRegistry.render_rail_spans st =
      (if st.entries = [] then []
        else joinNl (st.entries.map (fun p => railSpanOf p.2)))) := by
  refine ⟨?_, ?_, ?_, ?_, ?_⟩
  · intro defs
    exact ⟨rfl, rfl⟩
  · intro fuel st label e d hk hd he
    rw [SidenoteRegistry.render_reference, if_neg hk, hd, he]
  · intro fuel st label out st' hnone h
    rcases render_reference_ok_cases fuel st label out st' h with
      ⟨e, he, _, _⟩ | ⟨e, _, h1, h2, _, h3, h4, _⟩
    · rw [hnone] at he
      exact absurd he (by simp)
    · exact ⟨e, h1, h2, h3, h4⟩
  · intro fuel st label out st' hmap hcnt h
    rcases render_reference_ok_cases fuel st label out st' h with
      ⟨e, _, _, hst⟩ | ⟨e, _, h1, h2, _, h3, _, _⟩
    · rw [hst]
      exact ⟨hmap, hcnt⟩
    · rw [h1, h3]
      constructor
      · simp only [List.map_append, hmap, List.map_cons, List.map_nil, h2, hcnt,
          List.length_append, List.length_cons, List.length_nil]
        have hc := @List.range'_concat 1 1 st.entries.length
        simp only [one_mul] at hc
        rw [show st.entries.length + (0 + 1) = st.entries.length + 1 from by omega,
          hc]
        simp [Nat.add_comm]
      · simp [hcnt]
  · intro st
    rw [SidenoteRegistry.render_rail_spans]
    by_cases he : st.entries = []
    · rw [if_pos he, if_pos he]
    · rw [if_neg he, if_neg he, railLoop_eq_map]
      simp

/-- C2 witness: a second reference to a memoized label returns identical
markup and leaves the registry unchanged. -/
theorem C2_sidenote_numbering_witness :
    SidenoteRegistry.render_reference (2 + 1)
        ⟨[(tl "x", tl "Note.")], [(tl "x", ⟨tl "sn0", 1, tl "Note."⟩)], 1⟩
        (tl "x") =
      .ok (inlineMarkup ⟨tl "sn0", 1, tl "Note."⟩,
        ⟨[(tl "x", tl "Note.")], [(tl "x", ⟨tl "sn0", 1, tl "Note."⟩)], 1⟩) :=
  C2_sidenote_numbering.2.1 2
    ⟨[(tl "x", tl "Note.")], [(tl "x", ⟨tl "sn0", 1, tl "Note."⟩)], 1⟩
    (tl "x") ⟨tl "sn0", 1, tl "Note."⟩ (tl "Note.")
    (by decide) (by decide) (by decide)

/-! ## C9 -/

/-- The inline marker contains the `for="<id>"` attribute naming the
entry's id. -/
theorem inlineMarkup_for_infix (e : Entry) :
    (tl "for=\"" ++ e.id ++ tl "\"") <:+: inlineMarkup e := by
  refine ⟨tl "<label ",
    tl " class=\"sidenote-number\" data-number=\"" ++ natDigits e.number ++
      tl "\"></label><input type=\"checkbox\" id=\"" ++ e.id ++
      tl "\" class=\"margin-toggle\"><span class=\"sidenote sidenote--inline\"><span class=\"sidenote__marker\" data-number=\"" ++
      natDigits e.number ++ tl "\"></span>" ++ e.html ++ tl "</span>", ?_⟩
  rw [inlineMarkup]
  rw [show tl "<label for=\"" = tl "<label " ++ tl "for=\"" from by decide]
  rw [show tl "\" class=\"sidenote-number\" data-number=\"" =
    tl "\"" ++ tl " class=\"sidenote-number\" data-number=\"" from by decide]
  simp [List.append_assoc]

/-- The rail span carries the `data-sidenote-ref="<id>"` attribute naming
the entry's id. -/
theorem railSpanOf_ref_infix (e : Entry) :
    (tl "data-sidenote-ref=\"" ++ e.id ++ tl "\"") <:+: railSpanOf e := by
  refine ⟨tl "<span class=\"sidenote sidenote--rail\" ",
    tl "><span class=\"sidenote__marker\" data-number=\"" ++
      natDigits e.number ++ tl "\"></span>" ++ e.html ++ tl "</span>", ?_⟩
  rw [railSpanOf]
  rw [show tl "<span class=\"sidenote sidenote--rail\" data-sidenote-ref=\"" =
    tl "<span class=\"sidenote sidenote--rail\" " ++ tl "data-sidenote-ref=\""
    from by decide]
  rw [show tl "\"><span class=\"sidenote__marker\" data-number=\"" =
    tl "\"" ++ tl "><span class=\"sidenote__marker\" data-number=\""
    from by decide]
  simp [List.append_assoc]

/-- C9: (1) a fresh registry trivially satisfies the id format; (2) every
successful `render_reference` call preserves (and establishes for the new
entry) the id format `"sn" ++ (number - 1)` — ids are zero-based while
display numbers are one-based, so the first sidenote has id `sn0` and
number 1; (3) after any successful call the referenced entry is stored, the
returned inline marker is its markup carrying `for="<id>"`, and the rail
span list contains a span for it whose `data-sidenote-ref` attribute equals
that same id, associating the two representations. -/
theorem C9_id_number_association :
    (∀ defs p, p ∈ (SidenoteRegistry.init defs).entries →
      p.2.id = tl "sn" ++ natDigits (p.2.number - 1)) ∧
    (∀ fuel st label out st',
      SidenoteRegistry.render_reference (fuel + 1) st label = .ok (out, st') →
      (∀ p ∈ st.entries, p.2.id = tl "sn" ++ natDigits (p.2.number - 1)) →
      (∀ p ∈ st'.entries, p.2.id = tl "sn" ++ natDigits (p.2.number - 1))) ∧
    (∀ fuel st label out st',
      SidenoteRegistry.render_reference (fuel + 1) st label = .ok (out, st') →
      ∃ e, alGet (pyStrip label) st'.entries = some e ∧ out = inlineMarkup e ∧
        (tl "for=\"" ++ e.id ++ tl "\"") <:+: out ∧
        railSpanOf e ∈ st'.entries.map (fun p => railSpanOf p.2) ∧
        (tl "data-sidenote-ref=\"" ++ e.id ++ tl "\"") <:+: railSpanOf e) := by
  refine ⟨?_, ?_, ?_⟩
  · intro defs p hp
    simp [SidenoteRegistry.init] at hp
  · intro fuel st label out st' h hinv
    rcases render_reference_ok_cases fuel st label out st' h with
      ⟨e, _, _, hst⟩ | ⟨e, _, h1, h2, hid, _, _, _⟩
    · rw [hst]
      exact hinv
    · intro p hp
      rw [h1] at hp
      rcases List.mem_append.mp hp with hp | hp
      · exact hinv p hp
      · obtain rfl : p = (pyStrip label, e) := by simpa using hp
        simp only [hid, h2]
        have : st.counter + 1 - 1 = st.counter := by omega
        rw [this]
  · intro fuel st label out st' h
    rcases render_reference_ok_cases fuel st label out st' h with
      ⟨e, he, hout, hst⟩ | ⟨e, hnone, h1, _, _, _, hout, _⟩
    · refine ⟨e, ?_, hout, ?_, ?_, railSpanOf_ref_infix e⟩
      · rw [hst]; exact he
      · rw [hout]; exact inlineMarkup_for_infix e
      · rw [hst]
        exact List.mem_map.mpr ⟨(pyStrip label, e), alGet_mem _ _ _ he, rfl⟩
    · refine ⟨e, ?_, hout, ?_, ?_, railSpanOf_ref_infix e⟩
      · rw [h1]
        exact alGet_append_last _ _ _ hnone
      · rw [hout]; exact inlineMarkup_for_infix e
      · rw [h1]
        exact List.mem_map.mpr ⟨(pyStrip label, e), by simp, rfl⟩

set_option maxRecDepth 8000 in
/-- C9 witness: the association facts for the entry with id `sn0` and
number 1. -/
theorem C9_id_number_association_witness :
    ∃ e, alGet (pyStrip (tl "x"))
        (⟨[(tl "x", tl "Note.")], [(tl "x", ⟨tl "sn0", 1, tl "Note."⟩)],
          1⟩ : SidenoteRegistry).entries = some e ∧
      inlineMarkup ⟨tl "sn0", 1, tl "Note."⟩ = inlineMarkup e ∧
      (tl "for=\"" ++ e.id ++ tl "\"") <:+: inlineMarkup ⟨tl "sn0", 1, tl "Note."⟩ ∧
      railSpanOf e ∈
        (⟨[(tl "x", tl "Note.")], [(tl "x", ⟨tl "sn0", 1, tl "Note."⟩)],
          1⟩ : SidenoteRegistry).entries.map (fun p => railSpanOf p.2) ∧
      (tl "data-sidenote-ref=\"" ++ e.id ++ tl "\"") <:+: railSpanOf e :=
  C9_id_number_association.2.2 2
    ⟨[(tl "x", tl "Note.")], [(tl "x", ⟨tl "sn0", 1, tl "Note."⟩)], 1⟩
    (tl "x") (inlineMarkup ⟨tl "sn0", 1, tl "Note."⟩)
    ⟨[(tl "x", tl "Note.")], [(tl "x", ⟨tl "sn0", 1, tl "Note."⟩)], 1⟩
    (by decide)

/-- A scan that meets no backslash and no closing character before the
closing character we planted finds exactly that occurrence. -/
theorem findClosingFrom_clean (closing : Char) (l r : List Char)
    (hcl : closing ≠ '\\')
    (h : ∀ c ∈ l, c ≠ closing ∧ c ≠ '\\') :
    findClosingFrom closing (l ++ closing :: r) = some l.length := by
  induction l with
  | nil =>
    rw [List.nil_append, findClosingFrom.eq_def]
    dsimp only
    rw [if_neg hcl, if_pos rfl]
    rfl
  | cons c rest ih =>
    have hc := h c (List.mem_cons_self c rest)
    rw [List.cons_append, findClosingFrom.eq_def]
    dsimp only
    rw [if_neg hc.2, if_neg hc.1,
      ih (fun x hx => h x (List.mem_cons_of_mem _ hx))]
    rfl

/-- In the text `[^label]`, the `]`-scan started after the opening bracket
lands on the closing bracket. -/
theorem find_closing_open1 (label : Line)
    (h : ∀ c ∈ label, c ≠ ']' ∧ c ≠ '\\') :
    find_closing ('[' :: '^' :: (label ++ [']'])) 1 ']' =
      some (label.length + 2) := by
  rw [find_closing]
  have hdrop : ('[' :: '^' :: (label ++ [']'])).drop 1 =
      ('^' :: label) ++ ']' :: [] := by simp
  rw [hdrop, findClosingFrom_clean ']' ('^' :: label) [] (by decide) ?_]
  · simp
  · intro c hc
    rcases List.mem_cons.mp hc with rfl | hc
    · decide
    · exact h c hc

/-- In the text `[^label]`, the `]`-scan started after the caret lands on
the closing bracket. -/
theorem find_closing_open2 (label : Line)
    (h : ∀ c ∈ label, c ≠ ']' ∧ c ≠ '\\') :
    find_closing ('[' :: '^' :: (label ++ [']'])) 2 ']' =
      some (label.length + 2) := by
  rw [find_closing]
  have hdrop : ('[' :: '^' :: (label ++ [']'])).drop 2 = label ++ ']' :: [] := by
    simp
  rw [hdrop, findClosingFrom_clean ']' label [] (by decide) h]
  rfl

/-- Slicing the text `[^label]` between the caret and the closing bracket
recovers the label. -/
theorem pySlice_inner (label : Line) :
    pySlice ('[' :: '^' :: (label ++ [']'])) 2 (label.length + 2) = label := by
  rw [pySlice]
  have hdrop : ('[' :: '^' :: (label ++ [']'])).drop 2 = label ++ [']'] := by
    simp
  rw [hdrop, show label.length + 2 - 2 = label.length from by omega,
    List.take_left]

/-- `strip()` of a whitespace-only string is empty. -/
theorem pyStrip_spaces (ws : Line) (h : ∀ c ∈ ws, isPySpace c = true) :
    pyStrip ws = [] := by
  have : pyLstrip ws = [] := List.dropWhile_eq_nil_iff.mpr h
  rw [pyStrip, this]
  rfl

/-- When the rest of the text contains none of the markup trigger
characters, the inline scan walks to the end and flushes the pending
plain-text window, leaving the registry untouched. -/
theorem renderInlineAux_plain (text : Line) (allow : Bool)
    (ldefs : List (Line × LinkDef)) :
    ∀ fuel i start acc sn,
      text.length ≤ i + fuel →
      (∀ c ∈ text.drop i, c ≠ backtickChar ∧ c ≠ '[' ∧ c ≠ '\\' ∧ c ≠ '*' ∧
        c ≠ '~' ∧ c ≠ '=' ∧ c ≠ '<') →
      renderInlineAux (fuel + 1) text allow ldefs i start acc sn =
        .ok ((flushAcc text start text.length acc).flatten, sn) := by
  intro fuel
  induction fuel with
  | zero =>
    intro i start acc sn hlen _
    rw [renderInlineAux, if_neg (by omega)]
  | succ f ih =>
    intro i start acc sn hlen hchars
    by_cases hi : i < text.length
    · have hdropeq : text.drop i = text.getD i ' ' :: text.drop (i + 1) := by
        rw [List.getD_eq_getElem text ' ' hi]
        exact List.drop_eq_getElem_cons hi
      have hc := hchars (text.getD i ' ')
        (by rw [hdropeq]; exact List.mem_cons_self _ _)
      rw [renderInlineAux, if_pos hi]
      dsimp only
      rw [if_neg hc.1]
      rw [if_neg (fun h => hc.2.1 h.2)]
      rw [if_neg (fun h => hc.2.1 h.1)]
      rw [if_neg hc.2.2.1]
      rw [if_neg (fun h => hc.2.2.2.1 h.1)]
      rw [if_neg (fun h => hc.2.2.2.1 h.1)]
      rw [if_neg (fun h => hc.2.2.2.2.1 h.1)]
      rw [if_neg (fun h => hc.2.2.2.2.2.1 h.1)]
      rw [if_neg (fun h => hc.2.2.2.2.2.2 h.1)]
      exact ih (i + 1) start acc sn (by omega)
        (fun c hcm => hchars c (by rw [hdropeq]; exact List.mem_cons_of_mem _ hcm))
    · rw [renderInlineAux, if_neg hi]

/-- C7: `render_reference` fails when the trimmed label is empty, and when
the trimmed label has no matching footnote definition; and `render_inline`
on the sidenote syntax `[^label]` with a label that is non-empty after
trimming fails with the "sidenotes are not enabled" error when no registry
is active (the label hypothesis rules out characters that would end the
bracket scan early). -/
theorem C7_sidenote_errors :
    (∀ (fuel : Nat) (st : SidenoteRegistry) (label : Line),
      pyStrip label = [] →
      SidenoteRegistry.render_reference (fuel + 1) st label =
        .error (tl "Sidenote reference missing label")) ∧
    (∀ (fuel : Nat) (st : SidenoteRegistry) (label : Line),
      pyStrip label ≠ [] →
      alGet (pyStrip label) st.definitions = none →
      SidenoteRegistry.render_reference (fuel + 1) st label =
        .error (tl "Sidenote reference [^" ++ pyStrip label ++
          tl "] has no matching definition")) ∧
    (∀ (fuel : Nat) (allowLinks : Bool) (linkDefs : List (Line × LinkDef))
        (label : Line),
      pyStrip label ≠ [] →
      (∀ c ∈ label, c ≠ ']' ∧ c ≠ '\\') →
      render_inline (fuel + 1) ('[' :: '^' :: (label ++ [']'])) allowLinks none
          linkDefs =
        .error (tl "Sidenote reference [^" ++ pyStrip label ++
          tl "] found but sidenotes are not enabled")) := by
  refine ⟨?_, ?_, ?_⟩
  · intro fuel st label hk
    rw [SidenoteRegistry.render_reference, if_pos hk]
  · intro fuel st label hk hdef
    rw [SidenoteRegistry.render_reference, if_neg hk]
    dsimp only
    rw [hdef]
  · intro fuel allowLinks linkDefs label hs hcl
    have hfc1 := find_closing_open1 label hcl
    have hfc2 := find_closing_open2 label hcl
    have hslice := pySlice_inner label
    have hlen : ('[' :: '^' :: (label ++ [']'])).length = label.length + 3 := by
      simp
    rw [render_inline, renderInlineAux]
    rw [if_pos (show 0 < ('[' :: '^' :: (label ++ [']'])).length by simp)]
    dsimp only
    simp only [List.getD_cons_zero, List.getD_cons_succ, Nat.zero_add]
    rw [if_neg (show ¬ ('[' = backtickChar) by decide)]
    cases allowLinks with
    | false =>
      rw [if_neg (by simp)]
      rw [if_pos ⟨trivial, by rw [hlen]; omega, trivial⟩]
      rw [hfc2]
      dsimp only
      rw [hslice, if_neg hs]
    | true =>
      rw [if_pos ⟨rfl, trivial⟩]
      rw [hfc1]
      dsimp only
      rw [if_neg (by rw [hlen]; omega)]
      rw [if_neg (by rw [hlen]; omega)]
      rw [if_pos ⟨trivial, by rw [hlen]; omega, trivial⟩]
      rw [hfc2]
      dsimp only
      rw [hslice, if_neg hs]

/-- C7 witness: the three errors on concrete inputs. -/
theorem C7_sidenote_errors_witness :
    SidenoteRegistry.render_reference 1 (SidenoteRegistry.init []) (tl " ") =
        .error (tl "Sidenote reference missing label") ∧
    SidenoteRegistry.render_reference 1 (SidenoteRegistry.init []) (tl "x") =
        .error (tl "Sidenote reference [^" ++ pyStrip (tl "x") ++
          tl "] has no matching definition") ∧
    render_inline 1 (tl "[^x]") true none [] =
        .error (tl "Sidenote reference [^" ++ pyStrip (tl "x") ++
          tl "] found but sidenotes are not enabled") :=
  ⟨C7_sidenote_errors.1 0 (SidenoteRegistry.init []) (tl " ") (by decide),
   C7_sidenote_errors.2.1 0 (SidenoteRegistry.init []) (tl "x") (by decide)
     (by decide),
   C7_sidenote_errors.2.2 0 true [] (tl "x") (by decide) (by decide)⟩

/-- C10: sidenote syntax whose label is whitespace-only (empty after
trimming) is not an error and does not consult the registry — the scan
steps past the opening bracket and the whole text reaches the output as one
HTML-escaped plain-text segment, with the registry argument returned
unchanged (in particular when it is `none`); concretely, `[^]` renders to
the literal text `[^]`. -/
theorem C10_empty_label :
    (∀ (fuel : Nat) (allowLinks : Bool) (sn : Option SidenoteRegistry)
        (linkDefs : List (Line × LinkDef)) (ws : Line),
      (∀ c ∈ ws, isPySpace c = true) →
      ws.length + 4 ≤ fuel →
      render_inline fuel ('[' :: '^' :: (ws ++ [']'])) allowLinks sn linkDefs =
        .ok (render_text_segment ('[' :: '^' :: (ws ++ [']'])), sn)) ∧
    render_inline 8 (tl "[^]") true none [] = .ok (tl "[^]", none) := by
  constructor
  · intro fuel allow sn ldefs ws hws hfuel
    have hwsix : ∀ c ∈ ws, c = ' ' ∨ c = '\t' ∨ c = '\n' ∨ c = '\x0d' ∨
        c = Char.ofNat 11 ∨ c = Char.ofNat 12 := by
      intro c hc
      have h := hws c hc
      simp [isPySpace] at h
      tauto
    have hwsnc : ∀ c ∈ ws, c ≠ ']' ∧ c ≠ '\\' := by
      intro c hc
      rcases hwsix c hc with rfl | rfl | rfl | rfl | rfl | rfl <;> decide
    have hplain : ∀ c ∈ ('[' :: '^' :: (ws ++ [']'])).drop 1,
        c ≠ backtickChar ∧ c ≠ '[' ∧ c ≠ '\\' ∧ c ≠ '*' ∧
          c ≠ '~' ∧ c ≠ '=' ∧ c ≠ '<' := by
      intro c hcm
      simp only [List.drop_succ_cons, List.drop_zero] at hcm
      rcases List.mem_cons.mp hcm with rfl | hcm
      · decide
      · rcases List.mem_append.mp hcm with hcm | hcm
        · rcases hwsix c hcm with rfl | rfl | rfl | rfl | rfl | rfl <;> decide
        · rw [List.mem_singleton.mp hcm]
          decide
    have hfc1 := find_closing_open1 ws hwsnc
    have hfc2 := find_closing_open2 ws hwsnc
    have hslice := pySlice_inner ws
    have hstrip : pyStrip ws = [] := pyStrip_spaces ws hws
    have hlen : ('[' :: '^' :: (ws ++ [']'])).length = ws.length + 3 := by simp
    obtain ⟨d, rfl⟩ := Nat.exists_eq_add_of_le hfuel
    rw [render_inline,
      show ws.length + 4 + d = (ws.length + 3 + d) + 1 from by omega,
      renderInlineAux]
    rw [if_pos (show 0 < ('[' :: '^' :: (ws ++ [']'])).length by simp)]
    dsimp only
    simp only [List.getD_cons_zero, List.getD_cons_succ, Nat.zero_add]
    rw [if_neg (show ¬ ('[' = backtickChar) by decide)]
    have hrest : renderInlineAux (ws.length + 3 + d) ('[' :: '^' :: (ws ++ [']']))
        allow ldefs 1 0 [] sn =
        .ok ((flushAcc ('[' :: '^' :: (ws ++ [']'])) 0
          ('[' :: '^' :: (ws ++ [']'])).length []).flatten, sn) := by
      rw [show ws.length + 3 + d = (ws.length + 2 + d) + 1 from by omega]
      exact renderInlineAux_plain _ allow ldefs (ws.length + 2 + d) 1 0 [] sn
        (by rw [hlen]; omega) hplain
    have hflush : ((flushAcc ('[' :: '^' :: (ws ++ [']'])) 0
          ('[' :: '^' :: (ws ++ [']'])).length []).flatten : Line) =
        render_text_segment ('[' :: '^' :: (ws ++ [']'])) := by
      rw [flushAcc, if_pos (by simp)]
      simp only [pySlice, Nat.sub_zero, List.drop_zero, List.take_length,
        List.nil_append, List.flatten_cons, List.flatten_nil, List.append_nil]
    cases allow with
    | false =>
      rw [if_neg (by simp)]
      rw [if_pos ⟨trivial, by rw [hlen]; omega, trivial⟩]
      rw [hfc2]
      dsimp only
      rw [hslice, if_pos hstrip]
      rw [hrest, hflush]
    | true =>
      rw [if_pos ⟨rfl, trivial⟩]
      rw [hfc1]
      dsimp only
      rw [if_neg (by rw [hlen]; omega)]
      rw [if_neg (by rw [hlen]; omega)]
      rw [if_pos ⟨trivial, by rw [hlen]; omega, trivial⟩]
      rw [hfc2]
      dsimp only
      rw [hslice, if_pos hstrip]
      rw [hrest, hflush]
  · rfl

/-- C10 witness: a single-space label falls through to the escaped
plain-text path, which here is the literal text. -/
theorem C10_empty_label_witness :
    (render_inline 5 ('[' :: '^' :: ([' '] ++ [']'])) true none [] =
        .ok (render_text_segment ('[' :: '^' :: ([' '] ++ [']'])), none)) ∧
    render_text_segment ('[' :: '^' :: ([' '] ++ [']'])) = tl "[^ ]" :=
  ⟨C10_empty_label.1 5 true none [] [' '] (by decide) (by decide), by decide⟩
